import Mathlib

/-!
Verification of the in-memory record store and identity-resolution layer of
pi-hole FTL (`src/datastructure.c`), shallowly embedded in Lean 4.

Modelling conventions:
* C strings are byte lists (`CStr := List Nat`); the string-interning pool is
  modelled by storing the interned string itself in the record field that
  holds the offset in C (the pool is append-only and never garbage-collected,
  so offsets and strings are in bijection).
* Machine integers are `Nat`/`Int`; the 32-bit hash arithmetic reduces
  modulo `2 ^ 32` explicitly.
* Per-kind record arrays are Lean lists whose length is the per-kind counter
  (`counters->domains` etc.); the shared-memory region beyond the counter is
  zero-initialized, so advancing the counter past a reused slot appends a
  zeroed record.
* Enum values not defined in the fragment (they live in headers outside it)
  are modelled from the spec's enumeration order.
-/

/-- C strings, as lists of byte values (without the terminating NUL). -/
abbrev CStr := List Nat

/-- `MAGICBYTE`, the liveness sentinel stored in every live record.
Modelled from the spec: the concrete value is defined in a header outside the
fragment; only `magic = 0` (dead) versus `magic = MAGICBYTE` (live) matters. -/
def MAGICBYTE : Nat := 0x57

/-- `OVERTIME_SLOTS`, the fixed number of over-time buckets.
Modelled from the spec: "fixed bucket width, bounded bucket count"; the
concrete value lives in a header outside the fragment. -/
def OVERTIME_SLOTS : Nat := 600

/-- Number of valid query-status enum values (`QUERY_STATUS_MAX`).
Modelled from the spec's state list (§4.4): UNKNOWN, GRAVITY, FORWARDED,
CACHE, REGEX, DENYLIST, EXTERNAL_BLOCKED_{IP,NULL,NXRA}, GRAVITY_CNAME,
REGEX_CNAME, DENYLIST_CNAME, RETRIED, RETRIED_DNSSEC, IN_PROGRESS, DBBUSY,
SPECIAL_DOMAIN, CACHE_STALE — numbered 0..17 in this order. -/
def QUERY_STATUS_MAX : Nat := 18

def QUERY_UNKNOWN : Nat := 0
def QUERY_GRAVITY : Nat := 1
def QUERY_FORWARDED : Nat := 2
def QUERY_CACHE : Nat := 3
def QUERY_CACHE_STALE : Nat := 17

/-- `is_blocked` from `datastructure.c`: the query statuses classified as
blocked (the `switch` returning `true` for GRAVITY, REGEX, DENYLIST, the
three EXTERNAL_BLOCKED variants, the three CNAME variants, DBBUSY and
SPECIAL_DOMAIN; everything else, including out-of-range values, is `false`). -/
def is_blocked (status : Nat) : Bool :=
  match status with
  | 1 | 4 | 5 | 6 | 7 | 8 | 9 | 10 | 11 | 15 | 16 => true
  | _ => false

/-- `is_cached` from `datastructure.c`: `true` exactly for CACHE and
CACHE_STALE. -/
def is_cached (status : Nat) : Bool :=
  match status with
  | 3 | 17 => true
  | _ => false

/-- The code of `_query_set_status` tests `old_status == QUERY_CACHE ||
old_status == QUERY_CACHE_STALE` literally; this is the same predicate as
`is_cached`. -/
theorem is_cached_eq_code (s : Nat) :
    is_cached s = (s == QUERY_CACHE || s == QUERY_CACHE_STALE) := by
  match s with
  | 0 | 1 | 2 | 3 | 4 | 5 | 6 | 7 | 8 | 9 | 10 | 11 | 12 | 13 | 14 | 15 | 16 | 17 => rfl
  | n + 18 =>
    have h3 : (n + 18 == QUERY_CACHE) = false :=
      beq_eq_false_iff_ne.mpr (by simp only [QUERY_CACHE]; omega)
    have h17 : (n + 18 == QUERY_CACHE_STALE) = false :=
      beq_eq_false_iff_ne.mpr (by simp only [QUERY_CACHE_STALE]; omega)
    show false = (n + 18 == QUERY_CACHE || n + 18 == QUERY_CACHE_STALE)
    rw [h3, h17]
    rfl

/-- C10: the blocked and cached classification predicates are disjoint: no
query-status value satisfies both `is_blocked` and `is_cached`. -/
theorem is_blocked_is_cached_disjoint :
    ∀ s : Nat, (is_blocked s && is_cached s) = false := by
  intro s
  match s with
  | 0 | 1 | 2 | 3 | 4 | 5 | 6 | 7 | 8 | 9 | 10 | 11 | 12 | 13 | 14 | 15 | 16 | 17 => rfl
  | n + 18 => rfl

/-! ### Generic list helpers

`updAt l i f` is the in-place update `l[i] = f(l[i])` of a C array (no-op out
of range); `findIdxScan p l` is the `for(i = 0; i < count; i++) if(p) return i`
scan pattern that all find-or-create functions in the file use. -/

def updAt {α : Type} : List α → Nat → (α → α) → List α
  | [], _, _ => []
  | a :: t, 0, f => f a :: t
  | a :: t, n + 1, f => a :: updAt t n f

theorem length_updAt {α : Type} (l : List α) (i : Nat) (f : α → α) :
    (updAt l i f).length = l.length := by
  induction l generalizing i with
  | nil => rfl
  | cons a t ih =>
    cases i with
    | zero => rfl
    | succ n => simp [updAt, ih]

theorem getD_updAt_self {α : Type} (l : List α) (i : Nat) (f : α → α) (d : α)
    (h : i < l.length) : (updAt l i f).getD i d = f (l.getD i d) := by
  induction l generalizing i with
  | nil => simp at h
  | cons a t ih =>
    cases i with
    | zero => rfl
    | succ n =>
      simp only [List.length_cons, Nat.succ_lt_succ_iff] at h
      simpa [updAt] using ih n h

theorem getD_updAt_other {α : Type} (l : List α) (i j : Nat) (f : α → α) (d : α)
    (h : j ≠ i) : (updAt l i f).getD j d = l.getD j d := by
  induction l generalizing i j with
  | nil => rfl
  | cons a t ih =>
    cases i with
    | zero =>
      cases j with
      | zero => exact absurd rfl h
      | succ m => rfl
    | succ n =>
      cases j with
      | zero => rfl
      | succ m =>
        simpa [updAt] using ih n m (fun hc => h (by omega))

theorem sum_updAt (l : List Int) (i : Nat) (f : Int → Int) (h : i < l.length) :
    (updAt l i f).sum = l.sum + (f (l.getD i 0) - l.getD i 0) := by
  induction l generalizing i with
  | nil => simp at h
  | cons a t ih =>
    cases i with
    | zero => simp [updAt]; ring
    | succ n =>
      simp only [List.length_cons, Nat.succ_lt_succ_iff] at h
      simp only [updAt, List.sum_cons, List.getD_cons_succ, ih n h]
      ring

theorem getD_set_self {α : Type} (l : List α) (i : Nat) (a d : α)
    (h : i < l.length) : (l.set i a).getD i d = a := by
  induction l generalizing i with
  | nil => simp at h
  | cons b t ih =>
    cases i with
    | zero => rfl
    | succ n =>
      simp only [List.length_cons, Nat.succ_lt_succ_iff] at h
      simpa [List.set] using ih n h

theorem getD_set_other {α : Type} (l : List α) (i j : Nat) (a d : α)
    (h : j ≠ i) : (l.set i a).getD j d = l.getD j d := by
  induction l generalizing i j with
  | nil => rfl
  | cons b t ih =>
    cases i with
    | zero =>
      cases j with
      | zero => exact absurd rfl h
      | succ m => rfl
    | succ n =>
      cases j with
      | zero => rfl
      | succ m =>
        simpa [List.set] using ih n m (fun hc => h (by omega))

/-- Indicator of a boolean, as an integer. -/
def bi (b : Bool) : Int := if b then 1 else 0

theorem bi_true : bi true = 1 := rfl

theorem bi_false : bi false = 0 := rfl

/-- `countP` change caused by a single in-range `List.set`, phrased over `Int`
to avoid truncated subtraction. -/
theorem countP_set_int {α : Type} (l : List α) (i : Nat) (a : α) (p : α → Bool)
    (d : α) (h : i < l.length) :
    ((l.set i a).countP p : Int) =
      (l.countP p : Int) + bi (p a) - bi (p (l.getD i d)) := by
  induction l generalizing i with
  | nil => simp at h
  | cons b t ih =>
    cases i with
    | zero =>
      simp only [List.set, List.countP_cons, List.getD_cons_zero]
      by_cases hb : p b <;> by_cases ha : p a <;> simp [hb, ha, bi] <;> ring
    | succ n =>
      simp only [List.length_cons, Nat.succ_lt_succ_iff] at h
      simp only [List.set, List.countP_cons, List.getD_cons_succ]
      by_cases hb : p b <;> simp [hb, ih n h, bi] <;> ring

theorem getD_append_left {α : Type} (l l2 : List α) (j : Nat) (d : α)
    (h : j < l.length) : (l ++ l2).getD j d = l.getD j d := by
  induction l generalizing j with
  | nil => simp at h
  | cons a t ih =>
    cases j with
    | zero => rfl
    | succ n =>
      simp only [List.length_cons, Nat.succ_lt_succ_iff] at h
      simpa using ih n h

theorem getD_append_right {α : Type} (l : List α) (a d : α) :
    (l ++ [a]).getD l.length d = a := by
  induction l with
  | nil => rfl
  | cons b t ih => simpa using ih

/-- The forward scan `for(i = 0; i < count; i++) if(p(rec[i])) return i;`
returning the first matching index, or `none` when the loop falls through. -/
def findIdxScan {α : Type} (p : α → Bool) : List α → Option Nat
  | [] => none
  | a :: rest => if p a then some 0 else (findIdxScan p rest).map (· + 1)

theorem findIdxScan_eq_none_iff {α : Type} (p : α → Bool) (l : List α) :
    findIdxScan p l = none ↔ ∀ a ∈ l, p a = false := by
  induction l with
  | nil => simp [findIdxScan]
  | cons a rest ih =>
    by_cases ha : p a <;> simp [findIdxScan, ha, ih]

theorem findIdxScan_eq_some_iff {α : Type} (p : α → Bool) (l : List α) (j : Nat) :
    findIdxScan p l = some j ↔
      (∃ a, l[j]? = some a ∧ p a = true) ∧
        ∀ k < j, ∀ a, l[k]? = some a → p a = false := by
  induction l generalizing j with
  | nil => simp [findIdxScan]
  | cons a rest ih =>
    by_cases ha : p a
    · simp only [findIdxScan, ha, if_pos]
      constructor
      · rintro h
        cases h
        exact ⟨⟨a, by simp, ha⟩, fun k hk => by omega⟩
      · rintro ⟨⟨b, hb, hpb⟩, hmin⟩
        cases j with
        | zero => rfl
        | succ n =>
          have h0 := hmin 0 (by omega) a (by simp)
          rw [h0] at ha
          exact absurd ha (by simp)
    · simp only [findIdxScan, ha, if_neg, Bool.false_eq_true, not_false_iff,
        Option.map_eq_some']
      cases j with
      | zero =>
        constructor
        · rintro ⟨m, _, hm⟩; omega
        · rintro ⟨⟨b, hb, hpb⟩, _⟩
          simp only [List.getElem?_cons_zero, Option.some_inj] at hb
          cases hb
          rw [hpb] at ha
          exact absurd rfl ha
      | succ n =>
        constructor
        · rintro ⟨m, hm, hmn⟩
          have hmn' : m = n := by omega
          subst hmn'
          obtain ⟨⟨b, hb, hpb⟩, hmin⟩ := (ih m).mp hm
          refine ⟨⟨b, by simpa using hb, hpb⟩, ?_⟩
          intro k hk c hc
          cases k with
          | zero =>
            simp only [List.getElem?_cons_zero, Option.some_inj] at hc
            cases hc
            simp [ha]
          | succ m2 =>
            exact hmin m2 (by omega) c (by simpa using hc)
        · rintro ⟨⟨b, hb, hpb⟩, hmin⟩
          refine ⟨n, (ih n).mpr ⟨⟨b, by simpa using hb, hpb⟩, ?_⟩, rfl⟩
          intro k hk c hc
          exact hmin (k + 1) (by omega) c (by simpa using hc)

theorem findIdxScan_congr {α : Type} (p q : α → Bool) (l : List α)
    (h : ∀ a ∈ l, p a = q a) : findIdxScan p l = findIdxScan q l := by
  induction l with
  | nil => rfl
  | cons a rest ih =>
    have ha := h a (by simp)
    simp only [findIdxScan, ha]
    rw [ih (fun b hb => h b (by simp [hb]))]

theorem findIdxScan_some_lt {α : Type} (p : α → Bool) (l : List α) (j : Nat)
    (h : findIdxScan p l = some j) : j < l.length := by
  obtain ⟨⟨a, ha, _⟩, _⟩ := (findIdxScan_eq_some_iff p l j).mp h
  exact (List.getElem?_eq_some_iff.mp ha).1

/-! ### Hashing -/

/-- One loop iteration of `hashStr` (Jenkins one-at-a-time, 32-bit). -/
def hashStep (hash c : Nat) : Nat :=
  let hash := (hash + c) % 4294967296
  let hash := (hash + hash * 1024) % 4294967296
  Nat.xor hash (hash / 64)

/-- `hashStr` from `datastructure.c`: Jenkins' one-at-a-time hash of the
bytes of the string, in `uint32_t` arithmetic (`<<`/`>>` become `* 2^k` and
`/ 2^k`, additions reduce modulo `2 ^ 32`). -/
def hashStr (s : CStr) : Nat :=
  let hash := s.foldl hashStep 0
  let hash := (hash + hash * 8) % 4294967296
  let hash := Nat.xor hash (hash / 2048)
  (hash + hash * 32768) % 4294967296

/-! ### Enum ↔ string mappings -/

/-- ASCII-lowercasing of a Lean string, modelling the per-character `tolower`
used by `strcasecmp`. -/
def lowerStr (s : String) : String := String.mk (s.data.map Char.toLower)

/-- `strcasecmp(a, b) == 0`, the case-insensitive string equality used by all
`get_*_val` parsers. -/
def strcaseEq (a b : String) : Bool := lowerStr a == lowerStr b

/-- Blocking-mode enum. Modelled from the spec's order: MODE_IP, MODE_NX,
MODE_NULL, MODE_IP_NODATA_AAAA, MODE_NODATA, MODE_MAX (values from the config
header, outside the fragment). -/
def MODE_MAX : Nat := 5

/-- `get_blocking_mode_str` from `datastructure.c`. -/
def get_blocking_mode_str (mode : Nat) : String :=
  match mode with
  | 0 => "IP"
  | 1 => "NX"
  | 2 => "NULL"
  | 3 => "IP_NODATA_AAAA"
  | 4 => "NODATA"
  | _ => "N/A"

/-- `get_blocking_mode_val` from `datastructure.c`: case-insensitive parse,
`-1` on an unrecognized token. -/
def get_blocking_mode_val (blocking_mode : String) : Int :=
  if strcaseEq blocking_mode "IP" then 0
  else if strcaseEq blocking_mode "NX" then 1
  else if strcaseEq blocking_mode "NULL" then 2
  else if strcaseEq blocking_mode "IP_NODATA_AAAA" then 3
  else if strcaseEq blocking_mode "NODATA" then 4
  else -1

/-- Temperature-unit enum. Modelled from the spec's order: C, F, K (values
from the config header, outside the fragment). -/
def TEMP_UNIT_MAX : Nat := 3

/-- `get_temp_unit_str` from `datastructure.c`. -/
def get_temp_unit_str (temp_unit : Nat) : String :=
  match temp_unit with
  | 0 => "C"
  | 1 => "F"
  | 2 => "K"
  | _ => "N/A"

/-- `get_temp_unit_val` from `datastructure.c`. -/
def get_temp_unit_val (temp_unit : String) : Int :=
  if strcaseEq temp_unit "C" then 0
  else if strcaseEq temp_unit "F" then 1
  else if strcaseEq temp_unit "K" then 2
  else -1

/-- C9: for the enums with bidirectional string mappings (blocking mode and
temperature unit), parsing the printed form of any valid value returns that
value, also after changing its case; every parse result is either the `-1`
sentinel or a valid value; and parsing an unrecognized token returns `-1`. -/
theorem enum_string_round_trip :
    (∀ m < MODE_MAX, get_blocking_mode_val (get_blocking_mode_str m) = m) ∧
    (∀ m < MODE_MAX, get_blocking_mode_val (lowerStr (get_blocking_mode_str m)) = m) ∧
    (∀ s : String, get_blocking_mode_val s = -1 ∨
      (0 ≤ get_blocking_mode_val s ∧ get_blocking_mode_val s < MODE_MAX)) ∧
    get_blocking_mode_val "not-a-real-value" = -1 ∧
    (∀ u < TEMP_UNIT_MAX, get_temp_unit_val (get_temp_unit_str u) = u) ∧
    (∀ u < TEMP_UNIT_MAX, get_temp_unit_val (lowerStr (get_temp_unit_str u)) = u) ∧
    (∀ s : String, get_temp_unit_val s = -1 ∨
      (0 ≤ get_temp_unit_val s ∧ get_temp_unit_val s < TEMP_UNIT_MAX)) ∧
    get_temp_unit_val "not-a-real-value" = -1 := by
  refine ⟨by decide, by decide, ?_, by decide, by decide, by decide, ?_, by decide⟩
  · intro s
    unfold get_blocking_mode_val
    split
    · right; exact ⟨by omega, by unfold MODE_MAX; omega⟩
    · split
      · right; exact ⟨by omega, by unfold MODE_MAX; omega⟩
      · split
        · right; exact ⟨by omega, by unfold MODE_MAX; omega⟩
        · split
          · right; exact ⟨by omega, by unfold MODE_MAX; omega⟩
          · split
            · right; exact ⟨by omega, by unfold MODE_MAX; omega⟩
            · left; rfl
  · intro s
    unfold get_temp_unit_val
    split
    · right; exact ⟨by omega, by unfold TEMP_UNIT_MAX; omega⟩
    · split
      · right; exact ⟨by omega, by unfold TEMP_UNIT_MAX; omega⟩
      · split
        · right; exact ⟨by omega, by unfold TEMP_UNIT_MAX; omega⟩
        · left; rfl

/-- Witness for `enum_string_round_trip`: concrete instances of the bounded
hypotheses, e.g. blocking mode 3 round-trips through "IP_NODATA_AAAA". -/
theorem enum_string_round_trip_witness :
    get_blocking_mode_val (get_blocking_mode_str 3) = 3 ∧
    get_temp_unit_val (lowerStr (get_temp_unit_str 2)) = 2 ∧
    (get_blocking_mode_val "NoData" = -1 ∨
      (0 ≤ get_blocking_mode_val "NoData" ∧ get_blocking_mode_val "NoData" < MODE_MAX)) :=
  ⟨enum_string_round_trip.1 3 (by decide),
   enum_string_round_trip.2.2.2.2.2.1 2 (by decide),
   enum_string_round_trip.2.2.1 "NoData"⟩

/-! ### Record arena

Each record kind is a Lean list whose length is the per-kind counter
(`counters->domains`, `counters->clients`, `counters->upstreams`,
`counters->dns_cache_size`). A dead slot has `magic = 0`; creating a record
sets `magic := MAGICBYTE`. Fields the claims never touch (timestamps,
MAC/interface data, floating-point response-time estimates) are omitted. -/

/-- `domainsData` (fields used by the fragment). `domainpos` stores the
interned name itself; `lastQuery` (wall-clock) is omitted. -/
structure DomainRec where
  magic : Nat := 0
  domainpos : CStr := []
  domainhash : Nat := 0
  count : Int := 0
  blockedcount : Int := 0
deriving DecidableEq

/-- A zeroed domain slot (shared memory is zero-initialized). -/
def zeroDomain : DomainRec := {}

/-- `clientsData` (fields used by the fragment). `ippos`/`namepos` store the
interned strings; MAC/interface/group/firstSeen fields are omitted. -/
structure ClientRec where
  magic : Nat := 0
  ippos : CStr := []
  namepos : CStr := []
  count : Int := 0
  blockedcount : Int := 0
  overTime : List Int := []
  aliasclient : Bool := false
  aliasclient_id : Int := -1
deriving DecidableEq

/-- A zeroed client slot: every byte zero, in particular `aliasclient_id = 0`
(not the `-1` that `_findClientID` writes on creation) and an all-zero
over-time array. -/
def zeroClient : ClientRec :=
  { aliasclient_id := 0, overTime := List.replicate OVERTIME_SLOTS 0 }

/-- `upstreamsData` (fields used by the fragment); the floating-point
response-time fields (`rtime`, `rtuncertainty`, `lastQuery`) are omitted. -/
structure UpstreamRec where
  magic : Nat := 0
  ippos : CStr := []
  namepos : CStr := []
  port : Nat := 0
  failed : Int := 0
  flagsNew : Bool := false
  responses : Nat := 0
deriving DecidableEq

/-- `DNSCacheData` (fields used by the fragment). -/
structure DNSCacheRec where
  magic : Nat := 0
  blocking_status : Nat := 0
  domainID : Int := 0
  clientID : Int := 0
  query_type : Nat := 0
  force_reply : Nat := 0
  list_id : Int := 0
deriving DecidableEq

def zeroCache : DNSCacheRec := {}

/-- Writing a freshly initialized record into slot `i` of a kind's array and
then executing the unconditional `counters->KIND++` of the creation path.
When `i` is a reused dead slot (`i < length`), the counter increment exposes
one more zero-initialized shared-memory slot at the end; when `i` is the
high-water index (`i = length`), the new record itself becomes the new last
slot. -/
def writeNew {α : Type} (l : List α) (i : Nat) (r zero : α) : List α :=
  if i < l.length then l.set i r ++ [zero] else l ++ [r]

/-- The dead-slot scan shared by `get_next_free_domainID`,
`get_next_free_clientID` and `get_next_free_cacheID`: first index whose magic
byte is `0x00`. -/
def scanDead (magics : List Nat) : Option Nat :=
  findIdxScan (fun m => m == 0) magics

/-- `get_next_free_domainID` from `datastructure.c`: lowest index in
`[0, counters->domains)` whose magic byte is unset, else the high-water index
`counters->domains`. -/
def get_next_free_domainID (l : List DomainRec) : Nat :=
  match scanDead (l.map (fun d => d.magic)) with
  | some i => i
  | none => l.length

/-- `get_next_free_clientID` from `datastructure.c`. -/
def get_next_free_clientID (l : List ClientRec) : Nat :=
  match scanDead (l.map (fun c => c.magic)) with
  | some i => i
  | none => l.length

/-- `get_next_free_cacheID` from `datastructure.c`. -/
def get_next_free_cacheID (l : List DNSCacheRec) : Nat :=
  match scanDead (l.map (fun c => c.magic)) with
  | some i => i
  | none => l.length

/-- The match test of the `_findDomainID` scan: pre-computed-hash fast reject
followed by the exact string comparison. Note the scan calls
`_getDomain(domainID, false, ...)` — the magic byte is *not* checked. -/
def domainMatch (key : CStr) (d : DomainRec) : Bool :=
  d.domainhash == hashStr key && d.domainpos == key

/-- The scan loop of `_findDomainID`. -/
def scanDomains (key : CStr) (l : List DomainRec) : Option Nat :=
  findIdxScan (domainMatch key) l

/-- First character of a C string (`s[0]`; `0` for the empty string, which is
its terminating NUL byte). -/
def firstByte (s : CStr) : Nat := s.headD 0

/-- The match test of the `_findClientID` scan: the slot must be live
(`_getClient(clientID, true, ...)` checks the magic byte), then the
first-character fast reject, then the exact string comparison. -/
def clientMatch (key : CStr) (c : ClientRec) : Bool :=
  c.magic == MAGICBYTE && firstByte c.ippos == firstByte key && c.ippos == key

/-- The scan loop of `_findClientID`. -/
def scanClients (key : CStr) (l : List ClientRec) : Option Nat :=
  findIdxScan (clientMatch key) l

/-- The match test of the `_findUpstreamID` scan: exact (address, port)
comparison; `_getUpstream(upstreamID, false, ...)` does not check the magic
byte, and there is no dead-slot fast-reject. -/
def upstreamMatch (key : CStr) (port : Nat) (u : UpstreamRec) : Bool :=
  u.ippos == key && u.port == port

/-- The scan loop of `_findUpstreamID`. -/
def scanUpstreams (key : CStr) (port : Nat) (l : List UpstreamRec) : Option Nat :=
  findIdxScan (upstreamMatch key port) l

/-- The match test of the `_findCacheID` scan (`_getDNSCache(cacheID, true,
...)` checks the magic byte). -/
def cacheMatch (domainID clientID : Int) (query_type : Nat) (c : DNSCacheRec) : Bool :=
  c.magic == MAGICBYTE && c.domainID == domainID && c.clientID == clientID &&
    c.query_type == query_type

/-- The scan loop of `_findCacheID`. -/
def scanCache (domainID clientID : Int) (query_type : Nat)
    (l : List DNSCacheRec) : Option Nat :=
  findIdxScan (cacheMatch domainID clientID query_type) l

/-- `_findDomainID` from `datastructure.c`. On a hit, `count` increments the
domain's query counter (`lastQuery = double_time()` is omitted as external
wall-clock state); on a miss, a new record is stored at
`get_next_free_domainID()` and `counters->domains` is incremented. -/
def findDomainID (l : List DomainRec) (domainString : CStr) (count : Bool) :
    Int × List DomainRec :=
  match scanDomains domainString l with
  | some domainID =>
      ((domainID : Int),
        if count then updAt l domainID (fun d => { d with count := d.count + 1 }) else l)
  | none =>
      let domainID := get_next_free_domainID l
      let newDomain : DomainRec :=
        { magic := MAGICBYTE
          count := if count then 1 else 0
          blockedcount := 0
          domainpos := domainString
          domainhash := hashStr domainString }
      ((domainID : Int), writeNew l domainID newDomain zeroDomain)

/-- `_findUpstreamID` from `datastructure.c`. On a miss it allocates directly
at `counters->upstreams` — unlike the other three kinds there is no dead-slot
scan. -/
def findUpstreamID (l : List UpstreamRec) (upstreamString : CStr) (port : Nat) :
    Int × List UpstreamRec :=
  match scanUpstreams upstreamString port l with
  | some upstreamID => ((upstreamID : Int), l)
  | none =>
      let upstreamID := l.length
      let newUpstream : UpstreamRec :=
        { magic := MAGICBYTE
          ippos := upstreamString
          failed := 0
          flagsNew := true
          namepos := []
          responses := 0
          port := port }
      ((upstreamID : Int), l ++ [newUpstream])

/-- `_findCacheID` from `datastructure.c`. -/
def findCacheID (l : List DNSCacheRec) (domainID clientID : Int)
    (query_type : Nat) (create_new : Bool) : Int × List DNSCacheRec :=
  match scanCache domainID clientID query_type l with
  | some cacheID => ((cacheID : Int), l)
  | none =>
      if !create_new then (-1, l)
      else
        let cacheID := get_next_free_cacheID l
        let newCache : DNSCacheRec :=
          { magic := MAGICBYTE
            blocking_status := 0
            domainID := domainID
            clientID := clientID
            query_type := query_type
            force_reply := 0
            list_id := -1 }
        ((cacheID : Int), writeNew l cacheID newCache zeroCache)

/-! ### Clients: counter deltas and find-or-create -/

/-- One global over-time bucket (`overTimeData`): total/blocked/cached/
forwarded sub-counts for one fixed-width time window. -/
structure OTSlot where
  total : Int := 0
  blocked : Int := 0
  cached : Int := 0
  forwarded : Int := 0
deriving DecidableEq

def zeroSlot : OTSlot := {}

/-- The shared-memory state touched by the client operations: the client
array plus the global over-time buckets. -/
structure CState where
  clients : List ClientRec
  overTime : List OTSlot
deriving DecidableEq

/-- `change_clientcount` from `datastructure.c`, acting on the client at
index `cid`. The deltas are applied to the client (and, for an in-range
bucket index, to its time series and the global bucket's `total`) *before*
the alias-client check: if the client is itself flagged as an alias-client,
the function only logs a warning and skips the fan-out; otherwise the same
deltas are mirrored into the linked alias-client, if any (`getClient(id,
true)` there checks the magic byte). -/
def change_clientcount (st : CState) (cid : Nat) (total blocked : Int)
    (overTimeIdx : Int) (overTimeMod : Int) : CState :=
  match st.clients[cid]? with
  | none => st
  | some client =>
    let inRange : Bool := -1 < overTimeIdx && overTimeIdx < (OVERTIME_SLOTS : Int)
    let client' :=
      { client with
          count := client.count + total
          blockedcount := client.blockedcount + blocked
          overTime :=
            if inRange then updAt client.overTime overTimeIdx.toNat (· + overTimeMod)
            else client.overTime }
    let globalOT :=
      if inRange then
        updAt st.overTime overTimeIdx.toNat (fun s => { s with total := s.total + overTimeMod })
      else st.overTime
    let st' : CState := { clients := st.clients.set cid client', overTime := globalOT }
    if client.aliasclient then
      -- log_warn("Should not add to alias-client directly ..."); return;
      st'
    else if client.aliasclient_id > -1 then
      match st'.clients[client.aliasclient_id.toNat]? with
      | none => st'
      | some alias0 =>
        if alias0.magic == MAGICBYTE then
          let alias1 :=
            { alias0 with
                count := alias0.count + total
                blockedcount := alias0.blockedcount + blocked
                overTime :=
                  if inRange then updAt alias0.overTime overTimeIdx.toNat (· + overTimeMod)
                  else alias0.overTime }
          { st' with clients := st'.clients.set client.aliasclient_id.toNat alias1 }
        else st'
    else st'

/-- `_findClientID` from `datastructure.c`. On a hit with `count` (and not
alias-client registration), the running counter is bumped through
`change_clientcount(client, 1, 0, -1, 0)`. On a miss: lookup-only calls
return `-1`; otherwise a new record is created at `get_next_free_clientID()`
with zeroed counters and time series (`count = 1` when counting), and
`counters->clients` is incremented. The external side effects (hostname
resolution request, per-client regex reload, alias-client linkage check) have
no effect on this state. -/
def findClientID (st : CState) (clientIP : CStr) (count aliasclient : Bool) :
    Int × CState :=
  match scanClients clientIP st.clients with
  | some clientID =>
      if count && !aliasclient then
        ((clientID : Int), change_clientcount st clientID 1 0 (-1) 0)
      else ((clientID : Int), st)
  | none =>
      if !count && !aliasclient then (-1, st)
      else
        let clientID := get_next_free_clientID st.clients
        let newClient : ClientRec :=
          { magic := MAGICBYTE
            count := if count && !aliasclient then 1 else 0
            blockedcount := 0
            ippos := clientIP
            namepos := []
            overTime := List.replicate OVERTIME_SLOTS 0
            aliasclient := aliasclient
            aliasclient_id := -1 }
        ((clientID : Int),
          { st with clients := writeNew st.clients clientID newClient zeroClient })

/-! ### C3: slot allocation policy -/

/-- The allocation policy the spec describes for `allocate_or_reuse`: the
result is the lowest index in `[0, count)` holding a dead slot (magic byte
unset), or the high-water index `count` when every slot is live. -/
def NextFreeSpec (magics : List Nat) (r : Nat) : Prop :=
  r ≤ magics.length ∧ (∀ j < r, magics.getD j 0 ≠ 0) ∧
    (r < magics.length → magics.getD r 0 = 0)

theorem scanDead_nextFree (ms : List Nat) :
    NextFreeSpec ms (match scanDead ms with | some i => i | none => ms.length) := by
  cases h : scanDead ms with
  | none =>
    have hall := (findIdxScan_eq_none_iff (fun m => m == 0) ms).mp h
    refine ⟨Nat.le_refl _, fun j hj => ?_, fun hlt => absurd hlt (lt_irrefl _)⟩
    have hmem : ms.getD j 0 ∈ ms := by
      rw [List.getD_eq_getElem ms 0 hj]
      exact List.getElem_mem hj
    have := hall _ hmem
    simpa using this
  | some i =>
    obtain ⟨⟨a, ha, hpa⟩, hmin⟩ := (findIdxScan_eq_some_iff (fun m => m == 0) ms i).mp h
    have hi : i < ms.length := (List.getElem?_eq_some_iff.mp ha).1
    refine ⟨Nat.le_of_lt hi, fun j hj => ?_, fun _ => ?_⟩
    · have hjlen : j < ms.length := Nat.lt_trans hj hi
      have := hmin j hj (ms.getD j 0)
        (by rw [List.getD_eq_getElem ms 0 hjlen]; simp)
      simpa using this
    · obtain ⟨hlt, hval⟩ := List.getElem?_eq_some_iff.mp ha
      rw [List.getD_eq_getElem ms 0 hi, hval]
      simpa using hpa

/-- C3 counterexample: a one-slot upstream array whose only slot is dead
(magic byte `0`). The claim says a find-or-create miss must reuse index `0`;
`_findUpstreamID` instead allocates at the high-water index `1`, because the
upstream resolver has no dead-slot scan at all. -/
def deadUpstream : UpstreamRec := { ippos := [98] }

theorem upstream_no_reuse_counterexample :
    deadUpstream.magic = 0 ∧
    (findUpstreamID [deadUpstream] [97] 53).1 = 1 ∧
    (findUpstreamID [deadUpstream] [97] 53).1 ≠ 0 := by
  refine ⟨rfl, by decide, by decide⟩

/-- C3 (amended): for domains, clients and cache entries, a find-or-create
miss allocates at the lowest dead slot in `[0, count)` when one exists and at
the high-water index otherwise, but the per-kind count is advanced by one on
*every* creation (even when a dead slot was reused); upstream misses never
scan for dead slots — they always allocate at the high-water index and
advance the count. -/
theorem alloc_reuse_policy :
    (∀ l : List DomainRec,
      NextFreeSpec (l.map (fun d => d.magic)) (get_next_free_domainID l)) ∧
    (∀ l : List ClientRec,
      NextFreeSpec (l.map (fun c => c.magic)) (get_next_free_clientID l)) ∧
    (∀ l : List DNSCacheRec,
      NextFreeSpec (l.map (fun c => c.magic)) (get_next_free_cacheID l)) ∧
    (∀ (l : List DomainRec) (key : CStr) (c : Bool),
      scanDomains key l = none →
        (findDomainID l key c).1 = (get_next_free_domainID l : Int) ∧
        (findDomainID l key c).2.length = l.length + 1) ∧
    (∀ (st : CState) (ip : CStr) (c a : Bool),
      scanClients ip st.clients = none → (c || a) = true →
        (findClientID st ip c a).1 = (get_next_free_clientID st.clients : Int) ∧
        (findClientID st ip c a).2.clients.length = st.clients.length + 1) ∧
    (∀ (l : List DNSCacheRec) (dID cID : Int) (qt : Nat),
      scanCache dID cID qt l = none →
        (findCacheID l dID cID qt true).1 = (get_next_free_cacheID l : Int) ∧
        (findCacheID l dID cID qt true).2.length = l.length + 1) ∧
    (∀ (l : List UpstreamRec) (key : CStr) (port : Nat),
      scanUpstreams key port l = none →
        (findUpstreamID l key port).1 = (l.length : Int) ∧
        (findUpstreamID l key port).2.length = l.length + 1) := by
  have hwrite : ∀ {α : Type} (l : List α) (i : Nat) (r z : α), i ≤ l.length →
      (writeNew l i r z).length = l.length + 1 := by
    intro α l i r z hi
    unfold writeNew
    by_cases h : i < l.length <;> simp [h]
  have hnfD : ∀ l : List DomainRec, get_next_free_domainID l ≤ l.length := by
    intro l
    have := (scanDead_nextFree (l.map (fun d => d.magic))).1
    unfold get_next_free_domainID
    cases h : scanDead (l.map (fun d => d.magic)) <;> simp_all
  have hnfC : ∀ l : List ClientRec, get_next_free_clientID l ≤ l.length := by
    intro l
    have := (scanDead_nextFree (l.map (fun c => c.magic))).1
    unfold get_next_free_clientID
    cases h : scanDead (l.map (fun c => c.magic)) <;> simp_all
  have hnfQ : ∀ l : List DNSCacheRec, get_next_free_cacheID l ≤ l.length := by
    intro l
    have := (scanDead_nextFree (l.map (fun c => c.magic))).1
    unfold get_next_free_cacheID
    cases h : scanDead (l.map (fun c => c.magic)) <;> simp_all
  refine ⟨?_, ?_, ?_, ?_, ?_, ?_, ?_⟩
  · intro l
    have h := scanDead_nextFree (l.map (fun d => d.magic))
    unfold get_next_free_domainID
    cases hs : scanDead (l.map (fun d => d.magic)) <;> simp_all
  · intro l
    have h := scanDead_nextFree (l.map (fun c => c.magic))
    unfold get_next_free_clientID
    cases hs : scanDead (l.map (fun c => c.magic)) <;> simp_all
  · intro l
    have h := scanDead_nextFree (l.map (fun c => c.magic))
    unfold get_next_free_cacheID
    cases hs : scanDead (l.map (fun c => c.magic)) <;> simp_all
  · intro l key c hmiss
    unfold findDomainID
    rw [hmiss]
    exact ⟨rfl, hwrite l _ _ _ (hnfD l)⟩
  · intro st ip c a hmiss hca
    unfold findClientID
    rw [hmiss]
    have hne : (!c && !a) = false := by
      cases c <;> cases a <;> simp_all
    simp only [hne, Bool.false_eq_true, if_neg, ite_false]
    refine ⟨by simp, hwrite st.clients _ _ _ (hnfC st.clients)⟩
  · intro l dID cID qt hmiss
    unfold findCacheID
    rw [hmiss]
    exact ⟨rfl, hwrite l _ _ _ (hnfQ l)⟩
  · intro l key port hmiss
    unfold findUpstreamID
    rw [hmiss]
    exact ⟨rfl, by simp⟩

/-- A two-slot domain array: slot 0 live, slot 1 dead. -/
def exDomains : List DomainRec := [{ zeroDomain with magic := MAGICBYTE }, zeroDomain]

/-- An empty client state. -/
def emptyCState : CState := { clients := [], overTime := [] }

/-- Witness for `alloc_reuse_policy`: concrete instantiations of every
hypothesis-bearing conjunct — a domain miss on a two-slot array with a dead
slot still advances the count, client and cache misses on empty arrays
allocate slot 0, and an upstream miss allocates at the high-water mark. -/
theorem alloc_reuse_policy_witness :
    scanDomains [97] exDomains = none ∧
    (findDomainID exDomains [97] true).2.length = exDomains.length + 1 ∧
    scanClients [49] [] = none ∧
    (findClientID emptyCState [49] true false).2.clients.length = 1 ∧
    scanCache 0 0 0 [] = none ∧
    (findCacheID [] 0 0 0 true).2.length = 1 ∧
    scanUpstreams [97] 53 [deadUpstream] = none ∧
    (findUpstreamID [deadUpstream] [97] 53).1 = ([deadUpstream].length : Int) :=
  ⟨by decide,
   (alloc_reuse_policy.2.2.2.1 exDomains [97] true (by decide)).2,
   by decide,
   (alloc_reuse_policy.2.2.2.2.1 emptyCState [49] true false (by decide) (by decide)).2,
   by decide,
   (alloc_reuse_policy.2.2.2.2.2.1 [] 0 0 0 (by decide)).2,
   by decide,
   (alloc_reuse_policy.2.2.2.2.2.2 [deadUpstream] [97] 53 (by decide)).1⟩

/-! ### C8: the scan pre-filters are pure accelerators -/

/-- The spec's unaccelerated domain scan: a forward scan applying only the
exact string comparison, first match from index 0 winning (the source scan
passes `checkMagic = false`, so no liveness filter is involved on either
side). -/
def scanDomainsPlain (key : CStr) (l : List DomainRec) : Option Nat :=
  findIdxScan (fun d => d.domainpos == key) l

/-- The spec's unaccelerated client scan: scan the live client records and
apply only the exact string comparison, first match from index 0 winning. -/
def scanClientsPlain (key : CStr) (l : List ClientRec) : Option Nat :=
  findIdxScan (fun c => c.magic == MAGICBYTE && c.ippos == key) l

/-- C8: the 32-bit-hash fast-reject of the domain scan (on any arena state
whose stored hashes are the hashes of the stored names, which creation
guarantees) and the first-character fast-reject of the client scan never
change the scan result. -/
theorem scan_prefilters_sound (ld : List DomainRec) (lc : List ClientRec)
    (key ipkey : CStr)
    (hh : ∀ d ∈ ld, d.domainhash = hashStr d.domainpos) :
    scanDomains key ld = scanDomainsPlain key ld ∧
    scanClients ipkey lc = scanClientsPlain ipkey lc := by
  constructor
  · apply findIdxScan_congr
    intro d hd
    unfold domainMatch
    by_cases hpos : d.domainpos = key
    · have : d.domainhash = hashStr key := by rw [hh d hd, hpos]
      simp [hpos, this]
    · simp [hpos]
  · apply findIdxScan_congr
    intro c _
    unfold clientMatch
    by_cases hpos : c.ippos = ipkey
    · simp [hpos]
    · have : (c.ippos == ipkey) = false := beq_eq_false_iff_ne.mpr hpos
      simp [this]

/-- A one-slot domain arena whose stored hash is the hash of the stored
name, as `_findDomainID`'s creation path guarantees. -/
def exHashDomains : List DomainRec :=
  [{ magic := MAGICBYTE, domainpos := [97], domainhash := hashStr [97],
     count := 0, blockedcount := 0 }]

/-- A two-slot client arena in which only the second slot matches the probed
IP string. -/
def exClients : List ClientRec :=
  [{ zeroClient with magic := MAGICBYTE, ippos := [49, 51] },
   { zeroClient with magic := MAGICBYTE, ippos := [49, 50] }]

/-- Witness for `scan_prefilters_sound`: a concrete arena (one live domain
with a correctly pre-computed hash, two clients) on which both scans agree
with their unaccelerated counterparts. -/
theorem scan_prefilters_sound_witness :
    (∀ d ∈ exHashDomains, d.domainhash = hashStr d.domainpos) ∧
    scanDomains [97] exHashDomains = scanDomainsPlain [97] exHashDomains ∧
    scanClients [49, 50] exClients = scanClientsPlain [49, 50] exClients := by
  refine ⟨by decide, ?_, ?_⟩
  · exact (scan_prefilters_sound exHashDomains [] [97] [] (by decide)).1
  · exact (scan_prefilters_sound [] exClients [] [49, 50] (by decide)).2

/-! ### C7: domain IDs are distinct per name and stable -/

/-- A well-formed domain arena, as produced by `_findDomainID`'s own creation
path: every slot in `[0, count)` is live, stores the hash of its stored name,
and no two slots store the same name. -/
def GoodDomains (l : List DomainRec) : Prop :=
  (∀ j < l.length, (l.getD j zeroDomain).magic ≠ 0) ∧
  (∀ j < l.length,
    (l.getD j zeroDomain).domainhash = hashStr (l.getD j zeroDomain).domainpos) ∧
  (∀ k < l.length, ∀ j < k,
    (l.getD j zeroDomain).domainpos ≠ (l.getD k zeroDomain).domainpos)

theorem domainMatch_name {key : CStr} {d : DomainRec}
    (h : domainMatch key d = true) : d.domainpos = key := by
  unfold domainMatch at h
  exact beq_iff_eq.mp (Bool.and_elim_right h)

theorem domainMatch_of_name {key : CStr} {d : DomainRec}
    (hh : d.domainhash = hashStr d.domainpos) (h : d.domainpos = key) :
    domainMatch key d = true := by
  unfold domainMatch
  subst h
  simp [hh]

/-- The record stored by `_findDomainID`'s creation path. -/
def newDomainRec (key : CStr) (c : Bool) : DomainRec :=
  { magic := MAGICBYTE
    count := if c then 1 else 0
    blockedcount := 0
    domainpos := key
    domainhash := hashStr key }

theorem findDomainID_eq_hit_true {l : List DomainRec} {key : CStr} {i : Nat}
    (hs : scanDomains key l = some i) :
    findDomainID l key true =
      ((i : Int), updAt l i (fun d => { d with count := d.count + 1 })) := by
  unfold findDomainID
  rw [hs]
  rfl

theorem findDomainID_eq_hit_false {l : List DomainRec} {key : CStr} {i : Nat}
    (hs : scanDomains key l = some i) :
    findDomainID l key false = ((i : Int), l) := by
  unfold findDomainID
  rw [hs]
  rfl

theorem findDomainID_eq_miss {l : List DomainRec} {key : CStr} {c : Bool}
    (hs : scanDomains key l = none) :
    findDomainID l key c =
      ((get_next_free_domainID l : Int),
        writeNew l (get_next_free_domainID l) (newDomainRec key c) zeroDomain) := by
  unfold findDomainID newDomainRec
  rw [hs]

theorem writeNew_highwater {α : Type} (l : List α) (r z : α) :
    writeNew l l.length r z = l ++ [r] := by
  unfold writeNew
  simp

/-- In a well-formed arena the scan finds exactly the slot storing the probed
name. -/
theorem scanDomains_hit {l : List DomainRec} {key : CStr} {j : Nat}
    (hg : GoodDomains l) (hj : j < l.length)
    (hname : (l.getD j zeroDomain).domainpos = key) :
    scanDomains key l = some j := by
  obtain ⟨hlive, hhash, huniq⟩ := hg
  apply (findIdxScan_eq_some_iff (domainMatch key) l j).mpr
  constructor
  · refine ⟨l.getD j zeroDomain, ?_, ?_⟩
    · rw [List.getD_eq_getElem l zeroDomain hj]
      exact (List.getElem?_eq_some_iff).mpr ⟨hj, rfl⟩
    · exact domainMatch_of_name (hhash j hj) hname
  · intro k hk a ha
    have hklen : k < l.length := Nat.lt_trans hk hj
    have hak : a = l.getD k zeroDomain := by
      rw [List.getD_eq_getElem l zeroDomain hklen]
      exact ((List.getElem?_eq_some_iff).mp ha).2.symm
    rw [Bool.eq_false_iff]
    intro hpa
    have hname2 : (l.getD k zeroDomain).domainpos = key := by
      rw [← hak]
      exact domainMatch_name hpa
    exact huniq j hj k hk (hname2.trans hname.symm)

/-- In a well-formed arena a scan miss means the name is stored nowhere. -/
theorem scanDomains_miss {l : List DomainRec} {key : CStr}
    (hg : GoodDomains l) (hmiss : scanDomains key l = none) :
    ∀ j < l.length, (l.getD j zeroDomain).domainpos ≠ key := by
  intro j hj hname
  have hall := (findIdxScan_eq_none_iff (domainMatch key) l).mp hmiss
  have hmem : l.getD j zeroDomain ∈ l := by
    rw [List.getD_eq_getElem l zeroDomain hj]
    exact List.getElem_mem hj
  have hfalse := hall _ hmem
  rw [domainMatch_of_name (hg.2.1 j hj) hname] at hfalse
  exact absurd hfalse (by simp)

/-- In a well-formed arena every slot is live, so the dead-slot scan falls
through to the high-water index. -/
theorem get_next_free_of_good {l : List DomainRec} (hg : GoodDomains l) :
    get_next_free_domainID l = l.length := by
  unfold get_next_free_domainID scanDead
  have hnone : findIdxScan (fun m => m == 0) (l.map (fun d => d.magic)) = none := by
    apply (findIdxScan_eq_none_iff _ _).mpr
    intro a ha
    obtain ⟨d, hd, hda⟩ := List.mem_map.mp ha
    obtain ⟨j, hj, hdj⟩ := List.mem_iff_getElem.mp hd
    have hne : d.magic ≠ 0 := by
      have hl := hg.1 j hj
      rw [List.getD_eq_getElem l zeroDomain hj, hdj] at hl
      exact hl
    simpa [← hda] using hne
  rw [hnone]

/-- `_findDomainID` on a miss in a well-formed arena appends the new record
at the high-water index. -/
theorem findDomainID_miss_append {l : List DomainRec} {key : CStr} {c : Bool}
    (hg : GoodDomains l) (hs : scanDomains key l = none) :
    findDomainID l key c = ((l.length : Int), l ++ [newDomainRec key c]) := by
  rw [findDomainID_eq_miss hs, get_next_free_of_good hg, writeNew_highwater]

/-- The updated/extended arena after `_findDomainID` keeps the name, magic
byte and hash of every pre-existing slot and does not shrink. -/
theorem findDomainID_preserves {l : List DomainRec} {key : CStr} {c : Bool}
    (hg : GoodDomains l) :
    l.length ≤ (findDomainID l key c).2.length ∧
    ∀ j < l.length,
      ((findDomainID l key c).2.getD j zeroDomain).domainpos =
        (l.getD j zeroDomain).domainpos ∧
      ((findDomainID l key c).2.getD j zeroDomain).magic =
        (l.getD j zeroDomain).magic ∧
      ((findDomainID l key c).2.getD j zeroDomain).domainhash =
        (l.getD j zeroDomain).domainhash := by
  cases hs : scanDomains key l with
  | some i =>
    cases c with
    | false =>
      rw [findDomainID_eq_hit_false hs]
      exact ⟨Nat.le_refl _, fun j hj => ⟨rfl, rfl, rfl⟩⟩
    | true =>
      rw [findDomainID_eq_hit_true hs]
      refine ⟨by rw [length_updAt], fun j hj => ?_⟩
      by_cases hji : j = i
      · subst hji
        rw [getD_updAt_self l j _ zeroDomain hj]
        exact ⟨rfl, rfl, rfl⟩
      · rw [getD_updAt_other l i j _ zeroDomain hji]
        exact ⟨rfl, rfl, rfl⟩
  | none =>
    rw [findDomainID_miss_append hg hs]
    refine ⟨by simp, fun j hj => ?_⟩
    rw [getD_append_left l _ j zeroDomain hj]
    exact ⟨rfl, rfl, rfl⟩

/-- `_findDomainID` always returns a natural index whose slot stores the
probed name. -/
theorem findDomainID_spec {l : List DomainRec} {key : CStr} {c : Bool}
    (hg : GoodDomains l) :
    ∃ i : Nat, (findDomainID l key c).1 = (i : Int) ∧
      i < (findDomainID l key c).2.length ∧
      ((findDomainID l key c).2.getD i zeroDomain).domainpos = key := by
  cases hs : scanDomains key l with
  | some i =>
    have hil : i < l.length := findIdxScan_some_lt _ _ _ hs
    obtain ⟨⟨a, ha, hpa⟩, _⟩ := (findIdxScan_eq_some_iff (domainMatch key) l i).mp hs
    have hai : a = l.getD i zeroDomain := by
      rw [List.getD_eq_getElem l zeroDomain hil]
      exact ((List.getElem?_eq_some_iff).mp ha).2.symm
    have hname : (l.getD i zeroDomain).domainpos = key := by
      rw [← hai]
      exact domainMatch_name hpa
    cases c with
    | false =>
      rw [findDomainID_eq_hit_false hs]
      exact ⟨i, rfl, hil, hname⟩
    | true =>
      rw [findDomainID_eq_hit_true hs]
      refine ⟨i, rfl, by rw [length_updAt]; exact hil, ?_⟩
      rw [getD_updAt_self l i _ zeroDomain hil]
      exact hname
  | none =>
    rw [findDomainID_miss_append hg hs]
    refine ⟨l.length, rfl, by simp, ?_⟩
    rw [getD_append_right]
    rfl

/-- `_findDomainID` preserves arena well-formedness. -/
theorem findDomainID_good {l : List DomainRec} {key : CStr} {c : Bool}
    (hg : GoodDomains l) : GoodDomains (findDomainID l key c).2 := by
  have hpres := @findDomainID_preserves l key c hg
  obtain ⟨hlen, hfields⟩ := hpres
  obtain ⟨hlive, hhash, huniq⟩ := hg
  cases hs : scanDomains key l with
  | some i =>
    have hlen2 : (findDomainID l key c).2.length = l.length := by
      cases c with
      | false => rw [findDomainID_eq_hit_false hs]
      | true => rw [findDomainID_eq_hit_true hs]; exact length_updAt l i _
    refine ⟨fun j hj => ?_, fun j hj => ?_, fun k hk j hjk => ?_⟩
    · rw [hlen2] at hj
      rw [(hfields j hj).2.1]
      exact hlive j hj
    · rw [hlen2] at hj
      rw [(hfields j hj).2.2, (hfields j hj).1]
      exact hhash j hj
    · rw [hlen2] at hk
      have hjl : j < l.length := Nat.lt_trans hjk hk
      rw [(hfields j hjl).1, (hfields k hk).1]
      exact huniq k hk j hjk
  | none =>
    have hmiss := scanDomains_miss ⟨hlive, hhash, huniq⟩ hs
    rw [findDomainID_miss_append ⟨hlive, hhash, huniq⟩ hs] at hfields ⊢
    have hlennew : (l ++ [newDomainRec key c]).length = l.length + 1 := by simp
    have hnew : (l ++ [newDomainRec key c]).getD l.length zeroDomain =
        newDomainRec key c := getD_append_right l _ zeroDomain
    refine ⟨fun j hj => ?_, fun j hj => ?_, fun k hk j hjk => ?_⟩
    · rw [hlennew] at hj
      by_cases hje : j = l.length
      · subst hje
        rw [hnew]
        unfold newDomainRec MAGICBYTE
        intro hcontra
        simp at hcontra
      · have hjl : j < l.length := by omega
        rw [(hfields j hjl).2.1]
        exact hlive j hjl
    · rw [hlennew] at hj
      by_cases hje : j = l.length
      · subst hje
        rw [hnew]
        rfl
      · have hjl : j < l.length := by omega
        rw [(hfields j hjl).2.2, (hfields j hjl).1]
        exact hhash j hjl
    · rw [hlennew] at hk
      by_cases hke : k = l.length
      · subst hke
        have hjl : j < l.length := hjk
        rw [hnew, (hfields j hjl).1]
        exact hmiss j hjl
      · have hkl : k < l.length := by omega
        have hjl : j < l.length := Nat.lt_trans hjk hkl
        rw [(hfields j hjl).1, (hfields k hkl).1]
        exact huniq k hkl j hjk

/-- In a well-formed arena, `_findDomainID` returns the index of the (unique)
slot already storing the probed name. -/
theorem findDomainID_stable {l : List DomainRec} {key : CStr} {c : Bool}
    {j : Nat} (hg : GoodDomains l) (hj : j < l.length)
    (hname : (l.getD j zeroDomain).domainpos = key) :
    (findDomainID l key c).1 = (j : Int) := by
  have hs := scanDomains_hit hg hj hname
  cases c with
  | false => rw [findDomainID_eq_hit_false hs]
  | true => rw [findDomainID_eq_hit_true hs]

/-- C7: in a well-formed domain arena, find-or-create for two distinct names
`D1 ≠ D2` returns distinct IDs (no hypothesis relates `hashStr D1` and
`hashStr D2`, so this holds in particular when the hashes collide), and a
later find-or-create for `D1` — even after the intervening insertion of
`D2` — returns the same ID again, the slot having stayed live throughout. -/
theorem findDomainID_distinct_and_stable (l : List DomainRec) (D1 D2 : CStr)
    (c1 c2 c3 : Bool) (hg : GoodDomains l) (hne : D1 ≠ D2) :
    (findDomainID (findDomainID l D1 c1).2 D2 c2).1 ≠ (findDomainID l D1 c1).1 ∧
    (findDomainID (findDomainID (findDomainID l D1 c1).2 D2 c2).2 D1 c3).1 =
      (findDomainID l D1 c1).1 := by
  obtain ⟨i1, hi1, hi1lt, hi1name⟩ := @findDomainID_spec l D1 c1 hg
  have hg1 : GoodDomains (findDomainID l D1 c1).2 := findDomainID_good hg
  obtain ⟨i2, hi2, hi2lt, hi2name⟩ := @findDomainID_spec (findDomainID l D1 c1).2 D2 c2 hg1
  have hg2 : GoodDomains (findDomainID (findDomainID l D1 c1).2 D2 c2).2 :=
    findDomainID_good hg1
  obtain ⟨hlen2, hfields2⟩ := @findDomainID_preserves (findDomainID l D1 c1).2 D2 c2 hg1
  have hname1in2 :
      ((findDomainID (findDomainID l D1 c1).2 D2 c2).2.getD i1 zeroDomain).domainpos
        = D1 := by
    rw [(hfields2 i1 hi1lt).1]
    exact hi1name
  constructor
  · rw [hi1, hi2]
    intro hcontra
    have hieq : i2 = i1 := by exact_mod_cast hcontra
    subst hieq
    exact hne (hname1in2.symm.trans hi2name)
  · rw [hi1]
    exact findDomainID_stable hg2 (Nat.lt_of_lt_of_le hi1lt hlen2) hname1in2

/-- Witness for `findDomainID_distinct_and_stable`: starting from the empty
arena, inserting the names "a" and "b" yields IDs 0 and 1, and looking "a" up
again returns 0. -/
theorem findDomainID_distinct_and_stable_witness :
    GoodDomains [] ∧ ([97] : CStr) ≠ [98] ∧
    (findDomainID (findDomainID [] [97] true).2 [98] true).1 ≠
      (findDomainID [] [97] true).1 ∧
    (findDomainID (findDomainID (findDomainID [] [97] true).2 [98] true).2
      [97] true).1 = (findDomainID [] [97] true).1 := by
  have h := findDomainID_distinct_and_stable [] [97] [98] true true true
    (by refine ⟨?_, ?_, ?_⟩ <;> intro j hj <;> simp at hj)
    (by decide)
  exact ⟨⟨fun j hj => by simp at hj, fun j hj => by simp at hj,
    fun k hk => by simp at hk⟩, by decide, h.1, h.2⟩

/-! ### C2: counter deltas on an alias-flagged client -/

/-- A client record flagged as an alias-client, with zeroed counters. -/
def exAliasClient : ClientRec :=
  { magic := MAGICBYTE, ippos := [49], namepos := [], count := 0,
    blockedcount := 0, overTime := [0, 0], aliasclient := true,
    aliasclient_id := -1 }

/-- A client state holding only `exAliasClient`. -/
def exAliasState : CState :=
  { clients := [exAliasClient], overTime := [zeroSlot, zeroSlot] }

/-- C2 counterexample: calling `change_clientcount` directly on an
alias-flagged client is *not* a no-op — the client's own total count changes
from 0 to 1 (the code applies the deltas before the alias-client guard; the
guard only skips the fan-out). Likewise the global bucket total changes. -/
theorem change_clientcount_alias_not_noop :
    ((change_clientcount exAliasState 0 1 2 0 3).clients.getD 0 zeroClient).count ≠
      ((exAliasState).clients.getD 0 zeroClient).count ∧
    ((change_clientcount exAliasState 0 1 2 0 3).overTime.getD 0 zeroSlot).total ≠
      ((exAliasState).overTime.getD 0 zeroSlot).total := by
  refine ⟨by decide, by decide⟩

/-- C2 (amended): on a client flagged as an alias-client,
`change_clientcount` logs a warning and skips only the alias fan-out: the
deltas are still applied to the client's own total and blocked counters, to
its per-client time series, and (for an in-range bucket) to the global
bucket's total; no other client record is touched. -/
theorem change_clientcount_alias_behaviour (st : CState) (cid : Nat)
    (c : ClientRec) (total blocked overTimeIdx overTimeMod : Int)
    (hc : st.clients[cid]? = some c) (halias : c.aliasclient = true) :
    (change_clientcount st cid total blocked overTimeIdx overTimeMod).clients.length =
      st.clients.length ∧
    (∀ j, j ≠ cid →
      ((change_clientcount st cid total blocked overTimeIdx overTimeMod).clients.getD
          j zeroClient) = st.clients.getD j zeroClient) ∧
    ((change_clientcount st cid total blocked overTimeIdx overTimeMod).clients.getD
        cid zeroClient).count = c.count + total ∧
    ((change_clientcount st cid total blocked overTimeIdx overTimeMod).clients.getD
        cid zeroClient).blockedcount = c.blockedcount + blocked ∧
    ((change_clientcount st cid total blocked overTimeIdx overTimeMod).clients.getD
        cid zeroClient).overTime =
      (if -1 < overTimeIdx && overTimeIdx < (OVERTIME_SLOTS : Int) then
        updAt c.overTime overTimeIdx.toNat (· + overTimeMod)
      else c.overTime) ∧
    (change_clientcount st cid total blocked overTimeIdx overTimeMod).overTime =
      (if -1 < overTimeIdx && overTimeIdx < (OVERTIME_SLOTS : Int) then
        updAt st.overTime overTimeIdx.toNat
          (fun s => { s with total := s.total + overTimeMod })
      else st.overTime) := by
  have hlt : cid < st.clients.length := (List.getElem?_eq_some_iff.mp hc).1
  unfold change_clientcount
  rw [hc]
  dsimp only
  rw [halias]
  simp only [if_true]
  refine ⟨by simp, fun j hj => getD_set_other _ _ _ _ _ hj, ?_, ?_, ?_, trivial⟩
  · rw [getD_set_self _ _ _ _ hlt]
  · rw [getD_set_self _ _ _ _ hlt]
  · rw [getD_set_self _ _ _ _ hlt]

/-- Witness for `change_clientcount_alias_behaviour`: the concrete alias
state above, with deltas (1, 2) and bucket 0 mod 3. -/
theorem change_clientcount_alias_behaviour_witness :
    exAliasState.clients[0]? = some exAliasClient ∧
    exAliasClient.aliasclient = true ∧
    ((change_clientcount exAliasState 0 1 2 0 3).clients.getD 0 zeroClient).count =
      exAliasClient.count + 1 ∧
    (change_clientcount exAliasState 0 1 2 0 3).overTime =
      (if -1 < (0 : Int) && (0 : Int) < (OVERTIME_SLOTS : Int) then
        updAt exAliasState.overTime (0 : Int).toNat
          (fun s => { s with total := s.total + 3 })
      else exAliasState.overTime) :=
  ⟨by decide, by decide,
   (change_clientcount_alias_behaviour exAliasState 0 exAliasClient 1 2 0 3
      (by decide) (by decide)).2.2.1,
   (change_clientcount_alias_behaviour exAliasState 0 exAliasClient 1 2 0 3
      (by decide) (by decide)).2.2.2.2.2⟩

/-! ### C6: repeated find-or-create for one client IP -/

/-- The empty client state at startup: no clients, zeroed global buckets. -/
def CState0 : CState :=
  { clients := [], overTime := List.replicate OVERTIME_SLOTS zeroSlot }

/-- `N` successive `findClientID(ip, count = true, aliasclient = false)`
calls (each call starting from the previous call's state). -/
def iterFindClient (ip : CStr) : Nat → CState → CState
  | 0, st => st
  | n + 1, st => (findClientID (iterFindClient ip n st) ip true false).2

/-- The unique client record after `n ≥ 1` counted find-or-create calls for
`ip` from the empty state. -/
def nthClient (ip : CStr) (n : Nat) : ClientRec :=
  { magic := MAGICBYTE, ippos := ip, namepos := [], count := (n : Int),
    blockedcount := 0, overTime := List.replicate OVERTIME_SLOTS 0,
    aliasclient := false, aliasclient_id := -1 }

theorem iterFindClient_first (ip : CStr) :
    iterFindClient ip 1 CState0 =
      { clients := [nthClient ip 1], overTime := CState0.overTime } := by
  show (findClientID CState0 ip true false).2 = _
  rfl

theorem findClientID_hit_step (ip : CStr) (n : Nat) (ot : List OTSlot) :
    (findClientID { clients := [nthClient ip n], overTime := ot } ip true false).2 =
      { clients := [nthClient ip (n + 1)], overTime := ot } := by
  have hmatch : clientMatch ip (nthClient ip n) = true := by
    unfold clientMatch nthClient
    simp
  have hscan : scanClients ip [nthClient ip n] = some 0 := by
    unfold scanClients findIdxScan
    rw [hmatch]
    rfl
  unfold findClientID
  rw [hscan]
  show (change_clientcount
      { clients := [nthClient ip n], overTime := ot } 0 1 0 (-1) 0) = _
  unfold change_clientcount
  show (if (nthClient ip n).aliasclient then _ else _) = _
  unfold nthClient
  dsimp only
  norm_num

theorem iterFindClient_state (ip : CStr) (n : Nat) :
    iterFindClient ip (n + 1) CState0 =
      { clients := [nthClient ip (n + 1)], overTime := CState0.overTime } := by
  induction n with
  | zero => exact iterFindClient_first ip
  | succ m ih =>
    show (findClientID (iterFindClient ip (m + 1) CState0) ip true false).2 = _
    rw [ih]
    exact findClientID_hit_step ip (m + 1) CState0.overTime

/-- C6 counterexample: after `N = 1` counted find-or-create call for the IP
"1" from the empty state, the client's running count is `1` but the sum of
its per-bucket time series is `0`, not `N`: the find-or-create hit path
passes bucket index `-1`, which never touches the time series. -/
theorem findClientID_overTime_sum_counterexample :
    ((iterFindClient [49] 1 CState0).clients.getD 0 zeroClient).count = 1 ∧
    ((iterFindClient [49] 1 CState0).clients.getD 0 zeroClient).overTime.sum = 0 ∧
    ((iterFindClient [49] 1 CState0).clients.getD 0 zeroClient).overTime.sum ≠ 1 := by
  rw [iterFindClient_state [49] 0]
  refine ⟨rfl, ?_, ?_⟩
  · show (List.replicate OVERTIME_SLOTS (0 : Int)).sum = 0
    simp
  · show (List.replicate OVERTIME_SLOTS (0 : Int)).sum ≠ 1
    simp

/-- C6 (amended): after `N ≥ 1` counted, non-alias find-or-create calls for
the same client IP from the empty state there is exactly one client record;
it stores that IP, its running count equals `N`, and the sum of its
per-bucket time series is `0` — find-or-create itself never adds to the time
series (those additions happen in separate `change_clientcount` calls with a
real bucket index). -/
theorem findClientID_count_over_iterations (ip : CStr) (N : Nat) (hN : 1 ≤ N) :
    (iterFindClient ip N CState0).clients.length = 1 ∧
    ((iterFindClient ip N CState0).clients.getD 0 zeroClient).ippos = ip ∧
    ((iterFindClient ip N CState0).clients.getD 0 zeroClient).count = (N : Int) ∧
    ((iterFindClient ip N CState0).clients.getD 0 zeroClient).overTime.sum = 0 := by
  obtain ⟨m, rfl⟩ : ∃ m, N = m + 1 := ⟨N - 1, by omega⟩
  rw [iterFindClient_state ip m]
  refine ⟨rfl, rfl, rfl, ?_⟩
  show (List.replicate OVERTIME_SLOTS (0 : Int)).sum = 0
  simp

/-- Witness for `findClientID_count_over_iterations`: three calls for the IP
"1" leave one record with count 3 and an untouched time series. -/
theorem findClientID_count_over_iterations_witness :
    (1 : Nat) ≤ 3 ∧
    (iterFindClient [49] 3 CState0).clients.length = 1 ∧
    ((iterFindClient [49] 3 CState0).clients.getD 0 zeroClient).count = (3 : Int) ∧
    ((iterFindClient [49] 3 CState0).clients.getD 0 zeroClient).overTime.sum = 0 :=
  ⟨by decide,
   (findClientID_count_over_iterations [49] 3 (by decide)).1,
   (findClientID_count_over_iterations [49] 3 (by decide)).2.2.1,
   (findClientID_count_over_iterations [49] 3 (by decide)).2.2.2⟩

/-! ### C4: privacy-gated projections -/

/-- Privacy levels. Modelled from the spec: the "hide domains" threshold and
the stricter "hide domains and clients" threshold (values from a config
header outside the fragment; only their order matters). -/
def PRIVACY_HIDE_DOMAINS : Nat := 1

def PRIVACY_HIDE_DOMAINS_CLIENTS : Nat := 2

/-- `HIDDEN_DOMAIN`, the fixed domain redaction placeholder ("hidden").
Modelled from the spec; the constant lives in a header outside the
fragment. -/
def HIDDEN_DOMAIN : CStr := [104, 105, 100, 100, 101, 110]

/-- `HIDDEN_CLIENT`, the fixed client redaction placeholder. Modelled from
the spec; the constant lives in a header outside the fragment. -/
def HIDDEN_CLIENT : CStr := [104, 105, 100, 100, 101, 110]

/-- The query-record fields this core reads and writes. `timeidx` stores
`getOverTimeID(query->timestamp)` — the bucket of the query's fixed
timestamp (bucket indexing is external and the timestamp never changes, so
the bucket is stored directly). `counted` is bookkeeping (not a C field):
whether the query has received its initial status assignment and is hence
counted in the histogram. -/
structure queriesData where
  timeidx : Nat := 0
  status : Nat := 0
  privacylevel : Nat := 0
  domainID : Int := -1
  CNAME_domainID : Int := -1
  clientID : Int := -1
  counted : Bool := false
deriving DecidableEq

/-- `getDomain(id, checkMagic)`. Modelled from the spec: the arena accessor
(in `shmem.c`, outside the fragment) returns "not found" for an
out-of-range ID and, when `checkMagic` is set, for a dead slot. -/
def getDomain (l : List DomainRec) (id : Int) (checkMagic : Bool) :
    Option DomainRec :=
  if 0 ≤ id ∧ id.toNat < l.length then
    let d := l.getD id.toNat zeroDomain
    if checkMagic && d.magic != MAGICBYTE then none else some d
  else none

/-- `getClient(id, checkMagic)`. Modelled from the spec, as `getDomain`. -/
def getClient (l : List ClientRec) (id : Int) (checkMagic : Bool) :
    Option ClientRec :=
  if 0 ≤ id ∧ id.toNat < l.length then
    let c := l.getD id.toNat zeroClient
    if checkMagic && c.magic != MAGICBYTE then none else some c
  else none

/-- `getDomainString` from `datastructure.c`: empty string when the query is
absent or its domain ID is negative; below the hide-domains threshold the
domain record is resolved (empty string when not found) and its interned
name returned; otherwise the fixed placeholder. -/
def getDomainString (domains : List DomainRec) (q : Option queriesData) : CStr :=
  match q with
  | none => []
  | some query =>
    if query.domainID < 0 then []
    else if query.privacylevel < PRIVACY_HIDE_DOMAINS then
      match getDomain domains query.domainID true with
      | none => []
      | some domain => domain.domainpos
    else HIDDEN_DOMAIN

/-- `getClientIPString` from `datastructure.c`. -/
def getClientIPString (clients : List ClientRec) (q : Option queriesData) : CStr :=
  match q with
  | none => []
  | some query =>
    if query.clientID < 0 then []
    else if query.privacylevel < PRIVACY_HIDE_DOMAINS_CLIENTS then
      match getClient clients query.clientID true with
      | none => []
      | some client => client.ippos
    else HIDDEN_CLIENT

/-- `getClientNameString` from `datastructure.c`. -/
def getClientNameString (clients : List ClientRec) (q : Option queriesData) : CStr :=
  match q with
  | none => []
  | some query =>
    if query.clientID < 0 then []
    else if query.privacylevel < PRIVACY_HIDE_DOMAINS_CLIENTS then
      match getClient clients query.clientID true with
      | none => []
      | some client => client.namepos
    else HIDDEN_CLIENT

/-- C4: each accessor returns the empty string for an absent query or a
negative referenced ID; at or above its privacy threshold it returns its
fixed placeholder regardless of whether the referenced record exists; and
only below the threshold does it resolve the record (empty string when not
found) and return the interned string. The domain accessor uses the
hide-domains threshold; the client-IP and client-name accessors use the
hide-domains-and-clients threshold. -/
theorem privacy_projection_spec (domains : List DomainRec)
    (clients : List ClientRec) (q : queriesData) :
    getDomainString domains none = [] ∧
    (q.domainID < 0 → getDomainString domains (some q) = []) ∧
    (0 ≤ q.domainID → PRIVACY_HIDE_DOMAINS ≤ q.privacylevel →
      getDomainString domains (some q) = HIDDEN_DOMAIN) ∧
    (0 ≤ q.domainID → q.privacylevel < PRIVACY_HIDE_DOMAINS →
      getDomain domains q.domainID true = none →
      getDomainString domains (some q) = []) ∧
    (∀ d, 0 ≤ q.domainID → q.privacylevel < PRIVACY_HIDE_DOMAINS →
      getDomain domains q.domainID true = some d →
      getDomainString domains (some q) = d.domainpos) ∧
    getClientIPString clients none = [] ∧
    (q.clientID < 0 → getClientIPString clients (some q) = []) ∧
    (0 ≤ q.clientID → PRIVACY_HIDE_DOMAINS_CLIENTS ≤ q.privacylevel →
      getClientIPString clients (some q) = HIDDEN_CLIENT) ∧
    (0 ≤ q.clientID → q.privacylevel < PRIVACY_HIDE_DOMAINS_CLIENTS →
      getClient clients q.clientID true = none →
      getClientIPString clients (some q) = []) ∧
    (∀ c, 0 ≤ q.clientID → q.privacylevel < PRIVACY_HIDE_DOMAINS_CLIENTS →
      getClient clients q.clientID true = some c →
      getClientIPString clients (some q) = c.ippos) ∧
    getClientNameString clients none = [] ∧
    (q.clientID < 0 → getClientNameString clients (some q) = []) ∧
    (0 ≤ q.clientID → PRIVACY_HIDE_DOMAINS_CLIENTS ≤ q.privacylevel →
      getClientNameString clients (some q) = HIDDEN_CLIENT) ∧
    (0 ≤ q.clientID → q.privacylevel < PRIVACY_HIDE_DOMAINS_CLIENTS →
      getClient clients q.clientID true = none →
      getClientNameString clients (some q) = []) ∧
    (∀ c, 0 ≤ q.clientID → q.privacylevel < PRIVACY_HIDE_DOMAINS_CLIENTS →
      getClient clients q.clientID true = some c →
      getClientNameString clients (some q) = c.namepos) := by
  refine ⟨rfl, ?_, ?_, ?_, ?_, rfl, ?_, ?_, ?_, ?_, rfl, ?_, ?_, ?_, ?_⟩
  · intro h
    unfold getDomainString
    dsimp only
    rw [if_pos h]
  · intro h0 hp
    unfold getDomainString
    dsimp only
    rw [if_neg (by omega), if_neg (by omega)]
  · intro h0 hp hn
    unfold getDomainString
    dsimp only
    rw [if_neg (by omega), if_pos hp, hn]
  · intro d h0 hp hd
    unfold getDomainString
    dsimp only
    rw [if_neg (by omega), if_pos hp, hd]
  · intro h
    unfold getClientIPString
    dsimp only
    rw [if_pos h]
  · intro h0 hp
    unfold getClientIPString
    dsimp only
    rw [if_neg (by omega), if_neg (by omega)]
  · intro h0 hp hn
    unfold getClientIPString
    dsimp only
    rw [if_neg (by omega), if_pos hp, hn]
  · intro c h0 hp hc
    unfold getClientIPString
    dsimp only
    rw [if_neg (by omega), if_pos hp, hc]
  · intro h
    unfold getClientNameString
    dsimp only
    rw [if_pos h]
  · intro h0 hp
    unfold getClientNameString
    dsimp only
    rw [if_neg (by omega), if_neg (by omega)]
  · intro h0 hp hn
    unfold getClientNameString
    dsimp only
    rw [if_neg (by omega), if_pos hp, hn]
  · intro c h0 hp hc
    unfold getClientNameString
    dsimp only
    rw [if_neg (by omega), if_pos hp, hc]

/-- A query with privacy level 0 referencing domain 0 and client 0. -/
def qShow : queriesData := { domainID := 0, clientID := 0, privacylevel := 0 }

/-- A query with privacy level at the hide-domains-and-clients threshold,
referencing domain 0 and client 0. -/
def qHide : queriesData := { domainID := 0, clientID := 0, privacylevel := 2 }

set_option maxRecDepth 4000 in
/-- Witness for `privacy_projection_spec`: at privacy level 2 the domain
accessor yields the placeholder even on an *empty* domain arena (the record
does not exist), and at privacy level 0 the accessors resolve the stored
strings of concrete records. -/
theorem privacy_projection_spec_witness :
    getDomainString [] (some qHide) = HIDDEN_DOMAIN ∧
    getClientIPString exClients (some qHide) = HIDDEN_CLIENT ∧
    getDomainString exHashDomains (some qShow) = [97] ∧
    getClientIPString exClients (some qShow) = [49, 51] ∧
    getClientNameString exClients (some qShow) = [] :=
  ⟨(privacy_projection_spec [] [] qHide).2.2.1 (by decide) (by decide),
   (privacy_projection_spec [] exClients qHide).2.2.2.2.2.2.2.1 (by decide) (by decide),
   (privacy_projection_spec exHashDomains [] qShow).2.2.2.2.1
     ((exHashDomains).getD 0 zeroDomain) (by decide) (by decide) (by decide),
   (privacy_projection_spec [] exClients qShow).2.2.2.2.2.2.2.2.2.1
     ((exClients).getD 0 zeroClient) (by decide) (by decide) (by decide),
   (privacy_projection_spec [] exClients qShow).2.2.2.2.2.2.2.2.2.2.2.2.2.2
     ((exClients).getD 0 zeroClient) (by decide) (by decide) (by decide)⟩

/-! ### Query status state machine (C5, C1) -/

def defaultQuery : queriesData := {}

/-- The whole shared-memory state `_query_set_status` touches: the query
array, the global per-status histogram `counters->status[...]`, and the
global over-time buckets. -/
structure QState where
  queries : List queriesData
  status : List Int
  overTime : List OTSlot
deriving DecidableEq

/-- The six conditional read-modify-writes `_query_set_status` performs on
`overTime[timeidx]`, in source order (blocked, cached — tested literally as
`== QUERY_CACHE || == QUERY_CACHE_STALE` — and forwarded, each with an
old-status decrement gated on `!init` and a new-status increment). -/
def otUpdate (init : Bool) (old_status new_status : Nat) (s : OTSlot) : OTSlot :=
  let s := if is_blocked old_status && !init then
      { s with blocked := s.blocked - 1 } else s
  let s := if is_blocked new_status then
      { s with blocked := s.blocked + 1 } else s
  let s := if (old_status == QUERY_CACHE || old_status == QUERY_CACHE_STALE) && !init then
      { s with cached := s.cached - 1 } else s
  let s := if new_status == QUERY_CACHE || new_status == QUERY_CACHE_STALE then
      { s with cached := s.cached + 1 } else s
  let s := if old_status == QUERY_FORWARDED && !init then
      { s with forwarded := s.forwarded - 1 } else s
  let s := if new_status == QUERY_FORWARDED then
      { s with forwarded := s.forwarded + 1 } else s
  s

/-- `_query_set_status` from `datastructure.c`: no-op when `new_status` is
out of range or (for a non-initial call) unchanged; otherwise decrement the
histogram slot of the old status (unless initial), increment the slot of the
new status, apply the over-time updates at the bucket of the query's fixed
timestamp, and store the new status. The bookkeeping flag `counted` records
that the query is now reflected in the histogram. -/
def query_set_status (st : QState) (qid : Nat) (new_status : Nat) (init : Bool) :
    QState :=
  match st.queries[qid]? with
  | none => st
  | some query =>
    if QUERY_STATUS_MAX ≤ new_status then st
    else
      let old_status := query.status
      if old_status == new_status && !init then st
      else
        let status1 :=
          if init then st.status else updAt st.status old_status (fun x => x - 1)
        let status2 := updAt status1 new_status (fun x => x + 1)
        let overTime' :=
          updAt st.overTime query.timeidx (otUpdate init old_status new_status)
        { queries := st.queries.set qid { query with status := new_status, counted := true }
          status := status2
          overTime := overTime' }

/-- C5: for any new-status value outside the valid enum range the operation
is a complete no-op — the stored status, the histogram, and every time
bucket are untouched. -/
theorem query_set_status_out_of_range (st : QState) (qid ns : Nat) (init : Bool)
    (h : QUERY_STATUS_MAX ≤ ns) : query_set_status st qid ns init = st := by
  unfold query_set_status
  cases hq : st.queries[qid]? with
  | none => rfl
  | some q =>
    dsimp only
    rw [if_pos h]

/-- A small query state: one unassigned query, zeroed counters. -/
def exQState : QState :=
  { queries := [defaultQuery]
    status := List.replicate QUERY_STATUS_MAX 0
    overTime := [zeroSlot, zeroSlot] }

/-- Witness for `query_set_status_out_of_range`: storing status 18 (one past
the last valid value) into the concrete one-query state changes nothing. -/
theorem query_set_status_out_of_range_witness :
    QUERY_STATUS_MAX ≤ 18 ∧ query_set_status exQState 0 18 true = exQState :=
  ⟨by decide, query_set_status_out_of_range exQState 0 18 true (by decide)⟩

/-- An operation against the query store: creation of a query by the
surrounding pipeline (status starts as UNKNOWN and the query is not yet in
the histogram), or a `_query_set_status` call. -/
inductive QOp where
  | newQuery (q : queriesData)
  | setStatus (qid : Nat) (newStatus : Nat) (init : Bool)
deriving DecidableEq

def qstep (st : QState) : QOp → QState
  | .newQuery q => { st with queries := st.queries ++ [q] }
  | .setStatus qid ns init => query_set_status st qid ns init

/-- The caller contract of `_query_set_status`: the query exists, the status
value is valid, and `init` is set exactly on a query's first (initial)
assignment. New queries carry an in-range bucket (the external
`getOverTimeID` always yields one), start at UNKNOWN and are not yet
counted. -/
def validOp (st : QState) : QOp → Bool
  | .newQuery q =>
      decide (q.timeidx < OVERTIME_SLOTS) && q.status == QUERY_UNKNOWN &&
        q.counted == false
  | .setStatus qid ns init =>
      decide (qid < st.queries.length) && decide (ns < QUERY_STATUS_MAX) &&
        (init == !(st.queries.getD qid defaultQuery).counted)

def validSeq : QState → List QOp → Bool
  | _, [] => true
  | st, op :: ops => validOp st op && validSeq (qstep st op) ops

def qexec (st : QState) (ops : List QOp) : QState := ops.foldl qstep st

/-- The zeroed startup state. -/
def initQState : QState :=
  { queries := []
    status := List.replicate QUERY_STATUS_MAX 0
    overTime := List.replicate OVERTIME_SLOTS zeroSlot }

/-- The histogram-membership predicate for status slot `s`: a live (counted)
query whose current status is `s`. -/
def histP (s : Nat) (q : queriesData) : Bool := q.counted && q.status == s

/-- A live query in bucket `b` whose current status satisfies `p`. -/
def bucketP (b : Nat) (p : Nat → Bool) (q : queriesData) : Bool :=
  q.counted && q.timeidx == b && p q.status

/-- The state-machine invariant: well-sized counter arrays, in-range stored
statuses and buckets, and every maintained counter equal to the
corresponding derived count over the query array. -/
def QInv (st : QState) : Prop :=
  st.status.length = QUERY_STATUS_MAX ∧
  st.overTime.length = OVERTIME_SLOTS ∧
  (∀ j < st.queries.length,
    (st.queries.getD j defaultQuery).status < QUERY_STATUS_MAX ∧
    (st.queries.getD j defaultQuery).timeidx < OVERTIME_SLOTS) ∧
  st.status.sum = (st.queries.countP (fun q => q.counted) : Int) ∧
  (∀ s < QUERY_STATUS_MAX,
    st.status.getD s 0 = (st.queries.countP (histP s) : Int)) ∧
  (∀ b < OVERTIME_SLOTS,
    (st.overTime.getD b zeroSlot).blocked =
      (st.queries.countP (bucketP b is_blocked) : Int) ∧
    (st.overTime.getD b zeroSlot).cached =
      (st.queries.countP (bucketP b is_cached) : Int) ∧
    (st.overTime.getD b zeroSlot).forwarded =
      (st.queries.countP (bucketP b (fun s => s == QUERY_FORWARDED)) : Int))

theorem getD_replicate {α : Type} (n i : Nat) (a d : α) (h : i < n) :
    (List.replicate n a).getD i d = a := by
  induction n generalizing i with
  | zero => omega
  | succ m ih =>
    cases i with
    | zero => rfl
    | succ k =>
      simp only [List.replicate]
      exact ih k (by omega)

theorem initQState_inv : QInv initQState := by
  refine ⟨by simp [initQState], by simp [initQState], ?_, ?_, ?_, ?_⟩
  · intro j hj
    simp [initQState] at hj
  · simp [initQState]
  · intro s hs
    rw [show initQState.status = List.replicate QUERY_STATUS_MAX 0 from rfl,
      getD_replicate _ _ _ _ hs]
    simp [initQState]
  · intro b hb
    rw [show initQState.overTime = List.replicate OVERTIME_SLOTS zeroSlot from rfl,
      getD_replicate _ _ _ _ hb]
    simp [initQState, zeroSlot]

theorem ite_blocked_add (c : Bool) (t : OTSlot) :
    (if c then { t with blocked := t.blocked + 1 } else t).blocked =
      t.blocked + bi c := by
  cases c <;> simp [bi]

theorem ite_blocked_sub (c : Bool) (t : OTSlot) :
    (if c then { t with blocked := t.blocked - 1 } else t).blocked =
      t.blocked - bi c := by
  cases c <;> simp [bi]

theorem ite_cached_add (c : Bool) (t : OTSlot) :
    (if c then { t with cached := t.cached + 1 } else t).cached =
      t.cached + bi c := by
  cases c <;> simp [bi]

theorem ite_cached_sub (c : Bool) (t : OTSlot) :
    (if c then { t with cached := t.cached - 1 } else t).cached =
      t.cached - bi c := by
  cases c <;> simp [bi]

theorem ite_forwarded_add (c : Bool) (t : OTSlot) :
    (if c then { t with forwarded := t.forwarded + 1 } else t).forwarded =
      t.forwarded + bi c := by
  cases c <;> simp [bi]

theorem ite_forwarded_sub (c : Bool) (t : OTSlot) :
    (if c then { t with forwarded := t.forwarded - 1 } else t).forwarded =
      t.forwarded - bi c := by
  cases c <;> simp [bi]

theorem ite_blocked_of_cached (c : Bool) (t : OTSlot) (v : Int) :
    (if c then { t with cached := v } else t).blocked = t.blocked := by
  cases c <;> rfl

theorem ite_blocked_of_forwarded (c : Bool) (t : OTSlot) (v : Int) :
    (if c then { t with forwarded := v } else t).blocked = t.blocked := by
  cases c <;> rfl

theorem ite_cached_of_blocked (c : Bool) (t : OTSlot) (v : Int) :
    (if c then { t with blocked := v } else t).cached = t.cached := by
  cases c <;> rfl

theorem ite_cached_of_forwarded (c : Bool) (t : OTSlot) (v : Int) :
    (if c then { t with forwarded := v } else t).cached = t.cached := by
  cases c <;> rfl

theorem ite_forwarded_of_blocked (c : Bool) (t : OTSlot) (v : Int) :
    (if c then { t with blocked := v } else t).forwarded = t.forwarded := by
  cases c <;> rfl

theorem ite_forwarded_of_cached (c : Bool) (t : OTSlot) (v : Int) :
    (if c then { t with cached := v } else t).forwarded = t.forwarded := by
  cases c <;> rfl

theorem ite_total_of_blocked (c : Bool) (t : OTSlot) (v : Int) :
    (if c then { t with blocked := v } else t).total = t.total := by
  cases c <;> rfl

theorem ite_total_of_cached (c : Bool) (t : OTSlot) (v : Int) :
    (if c then { t with cached := v } else t).total = t.total := by
  cases c <;> rfl

theorem ite_total_of_forwarded (c : Bool) (t : OTSlot) (v : Int) :
    (if c then { t with forwarded := v } else t).total = t.total := by
  cases c <;> rfl

theorem otUpdate_total (init : Bool) (old ns : Nat) (s : OTSlot) :
    (otUpdate init old ns s).total = s.total := by
  unfold otUpdate
  dsimp only
  rw [ite_total_of_forwarded, ite_total_of_forwarded, ite_total_of_cached,
    ite_total_of_cached, ite_total_of_blocked, ite_total_of_blocked]

theorem otUpdate_blocked (init : Bool) (old ns : Nat) (s : OTSlot) :
    (otUpdate init old ns s).blocked =
      s.blocked - bi (is_blocked old && !init) + bi (is_blocked ns) := by
  unfold otUpdate
  dsimp only
  rw [ite_blocked_of_forwarded, ite_blocked_of_forwarded, ite_blocked_of_cached,
    ite_blocked_of_cached, ite_blocked_add, ite_blocked_sub]

theorem otUpdate_cached (init : Bool) (old ns : Nat) (s : OTSlot) :
    (otUpdate init old ns s).cached =
      s.cached -
        bi ((old == QUERY_CACHE || old == QUERY_CACHE_STALE) && !init) +
        bi (ns == QUERY_CACHE || ns == QUERY_CACHE_STALE) := by
  unfold otUpdate
  dsimp only
  rw [ite_cached_of_forwarded, ite_cached_of_forwarded, ite_cached_add,
    ite_cached_sub, ite_cached_of_blocked, ite_cached_of_blocked]

theorem otUpdate_forwarded (init : Bool) (old ns : Nat) (s : OTSlot) :
    (otUpdate init old ns s).forwarded =
      s.forwarded - bi (old == QUERY_FORWARDED && !init) +
        bi (ns == QUERY_FORWARDED) := by
  unfold otUpdate
  dsimp only
  rw [ite_forwarded_add, ite_forwarded_sub, ite_forwarded_of_cached,
    ite_forwarded_of_cached, ite_forwarded_of_blocked, ite_forwarded_of_blocked]

theorem getD_incAt (l : List Int) (i j : Nat) (hj : j < l.length) :
    (updAt l i (fun x => x + 1)).getD j 0 =
      l.getD j 0 + (if j = i then 1 else 0) := by
  by_cases h : j = i
  · subst h
    rw [getD_updAt_self _ _ _ _ hj]
    simp
  · rw [getD_updAt_other _ _ _ _ _ h]
    simp [h]

theorem getD_decAt (l : List Int) (i j : Nat) (hj : j < l.length) :
    (updAt l i (fun x => x - 1)).getD j 0 =
      l.getD j 0 - (if j = i then 1 else 0) := by
  by_cases h : j = i
  · subst h
    rw [getD_updAt_self _ _ _ _ hj]
    simp
  · rw [getD_updAt_other _ _ _ _ _ h]
    simp [h]

theorem qstep_inv {st : QState} {op : QOp} (hinv : QInv st)
    (hv : validOp st op = true) : QInv (qstep st op) := by
  obtain ⟨hslen, hotlen, hbounds, hsum, hstatus, hbuckets⟩ := hinv
  cases op with
  | newQuery q =>
    simp only [validOp, Bool.and_eq_true, decide_eq_true_eq, beq_iff_eq] at hv
    obtain ⟨⟨hti, hst0⟩, hcnt⟩ := hv
    show QInv { st with queries := st.queries ++ [q] }
    refine ⟨hslen, hotlen, ?_, ?_, ?_, ?_⟩
    · intro j hj
      simp only [List.length_append, List.length_cons, List.length_nil] at hj
      by_cases hje : j = st.queries.length
      · subst hje
        rw [getD_append_right]
        rw [hst0]
        exact ⟨by decide, hti⟩
      · have hjl : j < st.queries.length := by omega
        rw [getD_append_left _ _ _ _ hjl]
        exact hbounds j hjl
    · show st.status.sum = _
      rw [List.countP_append]
      simp [List.countP_cons, hcnt, hsum]
    · intro s hs
      show st.status.getD s 0 = _
      rw [List.countP_append, hstatus s hs]
      simp [List.countP_cons, histP, hcnt]
    · intro b hb
      show (st.overTime.getD b zeroSlot).blocked = _ ∧
        (st.overTime.getD b zeroSlot).cached = _ ∧
        (st.overTime.getD b zeroSlot).forwarded = _
      rw [(hbuckets b hb).1, (hbuckets b hb).2.1, (hbuckets b hb).2.2]
      refine ⟨?_, ?_, ?_⟩ <;>
        · rw [List.countP_append]
          simp [List.countP_cons, bucketP, hcnt]
  | setStatus qid ns init =>
    simp only [validOp, Bool.and_eq_true, decide_eq_true_eq, beq_iff_eq] at hv
    obtain ⟨⟨hqid, hns⟩, hinit⟩ := hv
    have hq? : st.queries[qid]? = some (st.queries.getD qid defaultQuery) := by
      rw [List.getD_eq_getElem _ _ hqid]
      exact List.getElem?_eq_some_iff.mpr ⟨hqid, rfl⟩
    set q := st.queries.getD qid defaultQuery with hqdef
    have hoq : q.status < QUERY_STATUS_MAX := (hbounds qid hqid).1
    have hot : q.timeidx < OVERTIME_SLOTS := (hbounds qid hqid).2
    have hcounted : q.counted = !init := by
      rw [hinit, Bool.not_not]
    show QInv (query_set_status st qid ns init)
    unfold query_set_status
    rw [hq?]
    dsimp only
    rw [if_neg (by omega)]
    by_cases hsame : (q.status == ns && !init) = true
    · rw [if_pos hsame]
      exact ⟨hslen, hotlen, hbounds, hsum, hstatus, hbuckets⟩
    · rw [if_neg hsame]
      have hlen1 :
          (if init then st.status
            else updAt st.status q.status (fun x => x - 1)).length =
            QUERY_STATUS_MAX := by
        cases init <;> simp [length_updAt, hslen]
      refine ⟨?_, ?_, ?_, ?_, ?_, ?_⟩
      · show (updAt _ ns _).length = _
        rw [length_updAt, hlen1]
      · show (updAt _ _ _).length = _
        rw [length_updAt, hotlen]
      · intro j hj
        show ((st.queries.set qid _).getD j defaultQuery).status < _ ∧
          ((st.queries.set qid _).getD j defaultQuery).timeidx < _
        rw [List.length_set] at hj
        by_cases hje : j = qid
        · subst hje
          rw [getD_set_self _ _ _ _ hj]
          exact ⟨hns, hot⟩
        · rw [getD_set_other _ _ _ _ _ hje]
          exact hbounds j hj
      · show (updAt _ ns _).sum = _
        rw [countP_set_int _ _ _ _ defaultQuery hqid, ← hqdef]
        have hcountq' :
            ({ q with status := ns, counted := true } : queriesData).counted = true :=
          rfl
        rw [hcountq', bi_true, hcounted]
        cases init with
        | true =>
          rw [if_pos rfl]
          have h2 : ns < st.status.length := by rw [hslen]; exact hns
          rw [sum_updAt _ _ _ h2, hsum]
          simp only [Bool.not_true, bi_false]
          ring
        | false =>
          rw [if_neg (by simp)]
          have h3 : q.status < st.status.length := by rw [hslen]; exact hoq
          have h2 : ns < (updAt st.status q.status (fun x => x - 1)).length := by
            rw [length_updAt, hslen]; exact hns
          rw [sum_updAt _ _ _ h2, sum_updAt _ _ _ h3, hsum]
          simp only [Bool.not_false, bi_true]
          ring
      · intro s hs
        show (updAt _ ns _).getD s 0 = _
        rw [countP_set_int _ _ _ _ defaultQuery hqid, ← hqdef]
        have hq'p : histP s ({ q with status := ns, counted := true } : queriesData) =
            (ns == s) := by
          simp [histP]
        have hqp : histP s q = (!init && (q.status == s)) := by
          simp only [histP, hcounted]
        rw [hq'p, hqp]
        have hsl : s < st.status.length := by rw [hslen]; exact hs
        have hbase := hstatus s hs
        cases init with
        | true =>
          rw [if_pos rfl]
          have hs2 : s < st.status.length := hsl
          rw [getD_incAt _ _ _ hs2, hbase]
          simp only [Bool.not_true, Bool.false_and, bi_false]
          by_cases hsn : s = ns
          · rw [if_pos hsn, show (ns == s) = true from beq_iff_eq.mpr hsn.symm, bi_true]
            ring
          · rw [if_neg hsn,
              show (ns == s) = false from beq_eq_false_iff_ne.mpr (Ne.symm hsn),
              bi_false]
            ring
        | false =>
          rw [if_neg (by simp)]
          simp only [Bool.not_false, Bool.true_and]
          have hql : q.status < st.status.length := by rw [hslen]; exact hoq
          have hs2 : s < (updAt st.status q.status (fun x => x - 1)).length := by
            rw [length_updAt]; exact hsl
          rw [getD_incAt _ _ _ hs2, getD_decAt _ _ _ hsl, hbase]
          by_cases hsn : s = ns <;> by_cases hsq : s = q.status
          · rw [if_pos hsn, if_pos hsq,
              show (ns == s) = true from beq_iff_eq.mpr hsn.symm, bi_true,
              show (q.status == s) = true from beq_iff_eq.mpr hsq.symm, bi_true]
            ring
          · rw [if_pos hsn, if_neg hsq,
              show (ns == s) = true from beq_iff_eq.mpr hsn.symm, bi_true,
              show (q.status == s) = false from
                beq_eq_false_iff_ne.mpr (Ne.symm hsq), bi_false]
            ring
          · rw [if_neg hsn, if_pos hsq,
              show (ns == s) = false from beq_eq_false_iff_ne.mpr (Ne.symm hsn),
              bi_false,
              show (q.status == s) = true from beq_iff_eq.mpr hsq.symm, bi_true]
            ring
          · rw [if_neg hsn, if_neg hsq,
              show (ns == s) = false from beq_eq_false_iff_ne.mpr (Ne.symm hsn),
              bi_false,
              show (q.status == s) = false from
                beq_eq_false_iff_ne.mpr (Ne.symm hsq), bi_false]
            ring
      · intro b hb
        show ((updAt st.overTime q.timeidx _).getD b zeroSlot).blocked = _ ∧
          ((updAt st.overTime q.timeidx _).getD b zeroSlot).cached = _ ∧
          ((updAt st.overTime q.timeidx _).getD b zeroSlot).forwarded = _
        have hbl : b < st.overTime.length := by rw [hotlen]; exact hb
        obtain ⟨hB, hC, hF⟩ := hbuckets b hb
        by_cases hbt : b = q.timeidx
        · subst hbt
          rw [getD_updAt_self _ _ _ _ hbl]
          rw [otUpdate_blocked, otUpdate_cached, otUpdate_forwarded, hB, hC, hF]
          have htb : (q.timeidx == q.timeidx) = true := beq_iff_eq.mpr rfl
          refine ⟨?_, ?_, ?_⟩
          · rw [countP_set_int _ _ _ _ defaultQuery hqid, ← hqdef]
            have h1 : bucketP q.timeidx is_blocked
                ({ q with status := ns, counted := true } : queriesData) =
                is_blocked ns := by
              simp [bucketP, htb]
            have h2 : bucketP q.timeidx is_blocked q = (is_blocked q.status && !init) := by
              simp only [bucketP, hcounted, htb, Bool.and_true]
              cases is_blocked q.status <;> cases init <;> rfl
            rw [h1, h2]
            cases hb1 : is_blocked q.status <;> cases hb2 : is_blocked ns <;>
              cases init <;>
              simp only [hb1, hb2, Bool.not_true, Bool.not_false, Bool.and_true,
                Bool.and_false, Bool.true_and, Bool.false_and, bi_true, bi_false] <;>
              ring
          · rw [countP_set_int _ _ _ _ defaultQuery hqid, ← hqdef]
            have h1 : bucketP q.timeidx is_cached
                ({ q with status := ns, counted := true } : queriesData) =
                is_cached ns := by
              simp [bucketP, htb]
            have h2 : bucketP q.timeidx is_cached q = (is_cached q.status && !init) := by
              simp only [bucketP, hcounted, htb, Bool.and_true]
              cases is_cached q.status <;> cases init <;> rfl
            rw [h1, h2, is_cached_eq_code, is_cached_eq_code]
            cases hb1 : (q.status == QUERY_CACHE || q.status == QUERY_CACHE_STALE) <;>
              cases hb2 : (ns == QUERY_CACHE || ns == QUERY_CACHE_STALE) <;>
              cases init <;>
              simp only [hb1, hb2, Bool.not_true, Bool.not_false, Bool.and_true,
                Bool.and_false, Bool.true_and, Bool.false_and, bi_true, bi_false] <;>
              ring
          · rw [countP_set_int _ _ _ _ defaultQuery hqid, ← hqdef]
            have h1 : bucketP q.timeidx (fun s => s == QUERY_FORWARDED)
                ({ q with status := ns, counted := true } : queriesData) =
                (ns == QUERY_FORWARDED) := by
              simp [bucketP, htb]
            have h2 : bucketP q.timeidx (fun s => s == QUERY_FORWARDED) q =
                ((q.status == QUERY_FORWARDED) && !init) := by
              simp only [bucketP, hcounted, htb, Bool.and_true]
              cases (q.status == QUERY_FORWARDED) <;> cases init <;> rfl
            rw [h1, h2]
            cases hb1 : (q.status == QUERY_FORWARDED) <;>
              cases hb2 : (ns == QUERY_FORWARDED) <;>
              cases init <;>
              simp only [hb1, hb2, Bool.not_true, Bool.not_false, Bool.and_true,
                Bool.and_false, Bool.true_and, Bool.false_and, bi_true, bi_false] <;>
              ring
        · rw [getD_updAt_other _ _ _ _ _ hbt]
          have htb : (q.timeidx == b) = false :=
            beq_eq_false_iff_ne.mpr (fun hc => hbt hc.symm)
          refine ⟨?_, ?_, ?_⟩ <;>
            · rw [countP_set_int _ _ _ _ defaultQuery hqid, ← hqdef]
              simp only [bucketP, htb, Bool.and_false, Bool.false_and, bi_false]
              first
              | (rw [hB]; ring)
              | (rw [hC]; ring)
              | (rw [hF]; ring)

theorem qexec_inv {st : QState} (hinv : QInv st) :
    ∀ ops : List QOp, validSeq st ops = true → QInv (qexec st ops) := by
  intro ops
  induction ops generalizing st with
  | nil => intro _; exact hinv
  | cons op rest ih =>
    intro hv
    simp only [validSeq, Bool.and_eq_true] at hv
    exact ih (qstep_inv hinv hv.1) hv.2

/-- C1: after any valid sequence of query creations and `_query_set_status`
calls (initial assignments and transitions, each with a valid status value)
from the zeroed startup state, the sum of the status histogram equals the
number of live queries (those that have received their initial assignment),
and every time bucket's blocked/cached/forwarded sub-counts equal the number
of live queries in that bucket whose *current* status is classified
blocked / cached / equal to FORWARDED, respectively. -/
theorem set_status_counters_consistent (ops : List QOp)
    (hv : validSeq initQState ops = true) :
    (qexec initQState ops).status.sum =
      ((qexec initQState ops).queries.countP (fun q => q.counted) : Int) ∧
    ∀ b < OVERTIME_SLOTS,
      ((qexec initQState ops).overTime.getD b zeroSlot).blocked =
        ((qexec initQState ops).queries.countP
          (fun q => q.counted && q.timeidx == b && is_blocked q.status) : Int) ∧
      ((qexec initQState ops).overTime.getD b zeroSlot).cached =
        ((qexec initQState ops).queries.countP
          (fun q => q.counted && q.timeidx == b && is_cached q.status) : Int) ∧
      ((qexec initQState ops).overTime.getD b zeroSlot).forwarded =
        ((qexec initQState ops).queries.countP
          (fun q => q.counted && q.timeidx == b &&
            (q.status == QUERY_FORWARDED)) : Int) := by
  have h := qexec_inv initQState_inv ops hv
  exact ⟨h.2.2.2.1, fun b hb => (h.2.2.2.2.2 b hb :)⟩

/-- A concrete operation sequence: create a query in bucket 0, give it the
initial status FORWARDED, then transition it to CACHE. -/
def exOps : List QOp :=
  [QOp.newQuery { timeidx := 0 },
   QOp.setStatus 0 QUERY_FORWARDED true,
   QOp.setStatus 0 QUERY_CACHE false]

set_option maxRecDepth 4000 in
/-- Witness for `set_status_counters_consistent`: the concrete sequence
`exOps` is valid, and the histogram-sum conclusion holds for it. -/
theorem set_status_counters_consistent_witness :
    validSeq initQState exOps = true ∧
    (qexec initQState exOps).status.sum =
      ((qexec initQState exOps).queries.countP (fun q => q.counted) : Int) :=
  ⟨by decide, (set_status_counters_consistent exOps (by decide)).1⟩
